import Mathlib

/-!
Verification of the `adb-cli-py` repository (`src/adbw/advanced.py`,
`src/adbw/ui_strings.py`) against its natural-language specification.

The Python code is shallowly embedded: strings are `List Char`, interactive
input is a script (`List (List Char)`) consumed in order, and every observable
effect (printing, shelling out to `adb`, touching the file system, sleeping)
is recorded as an `Event` in a trace.  The helpers `run`, `run_streaming`,
`adb_cmd` and `redact_if_enabled` live in `adbw/adb.py`, which is not part of
the sources; a shell-out is therefore recorded as the argument list handed to
`adb_cmd` (resp. the literal command list for direct `run([...])` calls), and
redaction is an explicit function parameter.
-/

/-- Output of Python `chr(39)`, the single-quote character. -/
def chQuote : Char := Char.ofNat 39

/-- The `{` character. -/
def chLB : Char := Char.ofNat 123

/-- The `}` character. -/
def chRB : Char := Char.ofNat 125

/-- Python `str.isspace` on a single character, restricted to the ASCII
whitespace actually produced by the programs involved. -/
def pyIsSpace (c : Char) : Bool :=
  c = ' ' || c = '\t' || c = '\n' || c = '\r' || c = Char.ofNat 11 || c = Char.ofNat 12

/-- Python `str.strip()`: drop leading and trailing whitespace. -/
def pyStrip (l : List Char) : List Char :=
  ((l.dropWhile pyIsSpace).reverse.dropWhile pyIsSpace).reverse

/-- Accumulator worker for `splitLines`; `acc` holds the current line in
reverse.  At the end of the input an in-progress line is emitted only when
non-empty, matching Python's treatment of a trailing final newline. -/
def splitLinesAux : List Char → List Char → List (List Char)
  | [], acc => if acc = [] then [] else [acc.reverse]
  | c :: rest, acc =>
    if c = '\n' then acc.reverse :: splitLinesAux rest []
    else splitLinesAux rest (c :: acc)

/-- Python `str.splitlines()` for newline-separated text: no entry is produced
for a trailing final newline, and the empty string yields no lines. -/
def splitLines (l : List Char) : List (List Char) := splitLinesAux l []

/-- Accumulator worker for `pyWords`; `acc` holds the current word in
reverse. -/
def pyWordsAux : List Char → List Char → List (List Char)
  | [], acc => if acc = [] then [] else [acc.reverse]
  | c :: rest, acc =>
    if pyIsSpace c then
      if acc = [] then pyWordsAux rest [] else acc.reverse :: pyWordsAux rest []
    else pyWordsAux rest (c :: acc)

/-- Python `str.split()` with no separator: maximal runs of non-whitespace,
with no empty words. -/
def pyWords (l : List Char) : List (List Char) := pyWordsAux l []

/-- The decimal digit character for `d < 10`. -/
def digitChar (d : Nat) : Char := Char.ofNat (48 + d)

/-- Decimal digits of a natural number, most significant first. -/
def natDigits (n : Nat) : List Char :=
  if n < 10 then [digitChar n] else natDigits (n / 10) ++ [digitChar (n % 10)]
termination_by n
decreasing_by
  have : 10 ≤ n := by omega
  exact Nat.div_lt_self (by omega) (by omega)

/-- Python `str(n)` for an integer. -/
def intChars (n : Int) : List Char :=
  if n < 0 then '-' :: natDigits n.natAbs else natDigits n.natAbs

/-- Python `f"{n:03d}"` for `n ≥ 0`: zero-pad the decimal form to width 3. -/
def pad3 (n : Nat) : List Char :=
  let ds := natDigits n
  List.replicate (3 - ds.length) '0' ++ ds

/-- Numeric value of a list of decimal digit characters. -/
def natValOf (ds : List Char) : Nat :=
  ds.foldl (fun a c => a * 10 + (c.toNat - 48)) 0

/-- Digit tail of a Python integer literal: decimal digits with single
underscores allowed between digits, accumulating the value. -/
def pyIntDigits : List Char → Nat → Option Nat
  | [], acc => some acc
  | '_' :: c :: rest, acc =>
    if c.isDigit then pyIntDigits rest (acc * 10 + (c.toNat - 48)) else none
  | c :: rest, acc =>
    if c.isDigit then pyIntDigits rest (acc * 10 + (c.toNat - 48)) else none

/-- Unsigned part of Python `int(...)`: at least one digit, underscores only
between digits. -/
def pyIntCore : List Char → Option Nat
  | [] => none
  | c :: rest => if c.isDigit then pyIntDigits rest (c.toNat - 48) else none

/-- Python `int(s)` on a decimal string literal: surrounding whitespace and an
optional sign are accepted; any other shape raises `ValueError`, modelled as
`none`. -/
def pyParseInt (l : List Char) : Option Int :=
  match pyStrip l with
  | '+' :: rest => (pyIntCore rest).map (fun n => (n : Int))
  | '-' :: rest => (pyIntCore rest).map (fun n => -(n : Int))
  | rest => (pyIntCore rest).map (fun n => (n : Int))

/-- A workflow step as built by `build_workflow`: a dictionary with string
keys and string values. -/
def Step : Type := List (List Char × List Char)

instance : DecidableEq Step := by unfold Step; infer_instance

/-- Python `step.get(key, default)` on a step dictionary (first binding wins,
as in a `dict`, whose keys are unique). -/
def stepGet (s : Step) (key : List Char) (dflt : List Char) : List Char :=
  match s.find? (fun p => p.1 = key) with
  | some p => p.2
  | none => dflt

/-- A stored workflow: `build_workflow` always writes a dictionary with a
`name` and a `steps` entry; `name?` is `none` for a hand-edited entry whose
`name` key is absent (`wf.get("name")` then yields Python `None`). -/
structure Workflow where
  name? : Option (List Char)
  steps : List Step
deriving DecidableEq

/-- One observable effect of a procedure in `advanced.py`.  `adbRun args`
records `run(adb_cmd(adb_path, serial, *args))`, `adbStream` the analogous
`run_streaming` call, and `rawRun cmd` a direct `run(cmd)`. -/
inductive Event where
  | msg (s : List Char)
  | adbRun (args : List (List Char))
  | adbStream (args : List (List Char))
  | rawRun (cmd : List (List Char))
  | fileWrite (path : List Char) (content : List Char)
  | fileGzip (src : List Char) (dst : List Char)
  | fileRemove (path : List Char)
  | makeDirs (path : List Char)
  | sleepFor (seconds : Int)
  | saveWorkflowsEv (ws : List Workflow)
  | saveAliasesEv (a : List (List Char × List Char))
  | pluginRun (name : List Char)
deriving DecidableEq

/-- `ADB_MENU_LINES` from `src/adbw/ui_strings.py`. -/
def ADB_MENU_LINES : List String :=
  [ "1) Device and session",
    "2) App and package",
    "3) File transfer",
    "4) Logging and diagnostics",
    "5) Utilities",
    "0) Exit" ]

/-- Total capture duration in seconds computed by `scheduled_log_capture`
from the raw minutes input (`max(30, int(m)*60)`, or `300` when `int`
raises `ValueError`). -/
def totalSecondsOf (minutes_raw : List Char) : Int :=
  match pyParseInt minutes_raw with
  | some m => max 30 (m * 60)
  | none => 300

/-- Chunk interval in seconds computed by `scheduled_log_capture` from the
raw interval input (`max(5, int(i))`, or `30` on `ValueError`). -/
def intervalOf (interval_raw : List Char) : Int :=
  match pyParseInt interval_raw with
  | some i => max 5 i
  | none => 30

instance : Inhabited Workflow := ⟨⟨none, []⟩⟩

/-- Python `s.isdigit()` for the ASCII digit strings relevant here: non-empty
and all decimal digits. -/
def pyAllDigits (l : List Char) : Bool := !l.isEmpty && l.all Char.isDigit

/-- Python `str.upper()` (ASCII). -/
def pyToUpper (l : List Char) : List Char := l.map Char.toUpper

/-- Python `d.get(k, default)` on a dictionary modelled as an association
list whose keys are unique. -/
def dictGet {β : Type} (d : List (List Char × β)) (k : List Char) (dflt : β) : β :=
  match d.find? (fun p => p.1 = k) with
  | some p => p.2
  | none => dflt

/-- Python `d[k] = v` on a dictionary modelled as an association list: an
existing key keeps its position and gets the new value, a new key is
appended. -/
def dictUpd {β : Type} (d : List (List Char × β)) (k : List Char) (v : β) :
    List (List Char × β) :=
  if d.any (fun p => p.1 = k) then d.map (fun p => if p.1 = k then (p.1, v) else p)
  else d ++ [(k, v)]

/-- The events of one iteration of the step loop of `run_workflow`
(`advanced.py` lines 170–200): dispatch on the step's `action` value. -/
def stepEvents (st : Step) : List Event :=
  let action := stepGet st "action".data []
  if action = "install_apk".data then
    let apk := stepGet st "apk_path".data []
    if apk = [] then [Event.msg "Skipped install_apk (missing apk_path).".data]
    else [Event.adbRun ["install".data, "-r".data, apk]]
  else if action = "clear_data".data then
    let pkg := stepGet st "package".data []
    if pkg = [] then []
    else [Event.adbRun ["shell".data, "pm".data, "clear".data, pkg]]
  else if action = "launch_app".data then
    let pkg := stepGet st "package".data []
    let act := stepGet st "activity".data []
    if pkg = [] then [Event.msg "Skipped launch_app (missing package).".data]
    else if act ≠ [] then
      [Event.adbRun ["shell".data, "am".data, "start".data, "-n".data,
        pkg ++ "/".data ++ act]]
    else
      [Event.adbRun ["shell".data, "monkey".data, "-p".data, pkg, "-c".data,
        "android.intent.category.LAUNCHER".data, "1".data]]
  else if action = "tail_filtered_logcat".data then
    let tag := stepGet st "tag".data "*".data
    let priority := stepGet st "priority".data "I".data
    [Event.adbStream ["logcat".data, tag ++ ":".data ++ priority, "*:S".data]]
  else [Event.msg ("Unknown step action: ".data ++ action)]

/-- The `for step in wf.get("steps", [])` loop of `run_workflow`. -/
def runSteps : List Step → List Event
  | [] => []
  | st :: rest => stepEvents st ++ runSteps rest

/-- The line printed for workflow number `i` by `list_workflows`. -/
def workflowLine (i : Nat) (wf : Workflow) : List Char :=
  natDigits i ++ ") ".data ++ wf.name?.getD "unnamed".data ++ " [".data ++
    List.intercalate ", ".data
      (wf.steps.map (fun s => stepGet s "action".data "?".data)) ++ "]".data

/-- The trace of `list_workflows` for an already-loaded store. -/
def listWorkflowsEvents (ws : List Workflow) : List Event :=
  if ws = [] then [Event.msg "No workflows found.".data]
  else ws.enum.map (fun p => Event.msg (workflowLine (p.1 + 1) p.2))

/-- The trace of `run_workflow` for a loaded workflow store and an input
script (the selection prompt's answers); an exhausted script models `input`
raising `EOFError`, which aborts with the events emitted so far. -/
def runWorkflow (ws : List Workflow) (script : List (List Char)) : List Event :=
  if ws = [] then [Event.msg "No workflows found.".data]
  else
    listWorkflowsEvents ws ++
    match script with
    | [] => []
    | choiceRaw :: _ =>
      let choice := pyStrip choiceRaw
      if ¬ (pyAllDigits choice = true ∧ 1 ≤ natValOf choice ∧ natValOf choice ≤ ws.length)
      then [Event.msg "Invalid choice.".data]
      else
        let wf := ws.getD (natValOf choice - 1) default
        Event.msg ("Running workflow: ".data ++ wf.name?.getD "unnamed".data) ::
          runSteps wf.steps ++ [Event.msg "Workflow complete.".data]

/-- Result of the step-collection loop of `build_workflow`: the steps built,
the messages printed, and whether the loop reached its normal exit (a blank
action); `completed = false` models `input` raising `EOFError` mid-loop. -/
structure StepLoopOut where
  steps : List Step
  msgs : List (List Char)
  completed : Bool
deriving DecidableEq

/-- The step-collection loop of `build_workflow` (`advanced.py` lines
121–138), consuming the input script. -/
def stepLoop : List (List Char) → StepLoopOut
  | [] => ⟨[], [], false⟩
  | a :: rest =>
    let action := pyStrip a
    if action = [] then ⟨[], [], true⟩
    else if action = "install_apk".data then
      match rest with
      | [] => ⟨[], [], false⟩
      | p :: rest2 =>
        let o := stepLoop rest2
        ⟨[("action".data, "install_apk".data), ("apk_path".data, pyStrip p)] :: o.steps,
          o.msgs, o.completed⟩
    else if action = "clear_data".data then
      match rest with
      | [] => ⟨[], [], false⟩
      | p :: rest2 =>
        let o := stepLoop rest2
        ⟨[("action".data, "clear_data".data), ("package".data, pyStrip p)] :: o.steps,
          o.msgs, o.completed⟩
    else if action = "launch_app".data then
      match rest with
      | p :: act :: rest2 =>
        let o := stepLoop rest2
        ⟨[("action".data, "launch_app".data), ("package".data, pyStrip p),
            ("activity".data, pyStrip act)] :: o.steps, o.msgs, o.completed⟩
      | _ => ⟨[], [], false⟩
    else if action = "tail_filtered_logcat".data then
      match rest with
      | t :: pr :: rest2 =>
        let o := stepLoop rest2
        let tag := if pyStrip t = [] then "*".data else pyStrip t
        let priority := if pyToUpper (pyStrip pr) = [] then "I".data else pyToUpper (pyStrip pr)
        ⟨[("action".data, "tail_filtered_logcat".data), ("tag".data, tag),
            ("priority".data, priority)] :: o.steps, o.msgs, o.completed⟩
      | _ => ⟨[], [], false⟩
    else
      let o := stepLoop rest
      ⟨o.steps, "Unknown action.".data :: o.msgs, o.completed⟩

/-- Result of `build_workflow`: the trace and, when the store was written,
the workflow list that was saved. -/
structure BuildResult where
  events : List Event
  saved : Option (List Workflow)
deriving DecidableEq

/-- `build_workflow` (`advanced.py` lines 113–145) on a loaded store and an
input script. -/
def buildWorkflow (stored : List Workflow) (script : List (List Char)) : BuildResult :=
  match script with
  | [] => ⟨[], none⟩
  | nameRaw :: rest =>
    let name := pyStrip nameRaw
    if name = [] then ⟨[Event.msg "Workflow name is required.".data], none⟩
    else
      let header := Event.msg
        "Add steps: install_apk | clear_data | launch_app | tail_filtered_logcat".data
      let lo := stepLoop rest
      if lo.completed = false then ⟨header :: lo.msgs.map Event.msg, none⟩
      else if lo.steps = [] then
        ⟨header :: lo.msgs.map Event.msg ++ [Event.msg "No steps added.".data], none⟩
      else
        let ws2 := stored.filter (fun w => w.name? ≠ some name) ++
          [{ name? := some name, steps := lo.steps }]
        ⟨header :: lo.msgs.map Event.msg ++
            [Event.saveWorkflowsEv ws2, Event.msg ("Saved workflow: ".data ++ name)],
          some ws2⟩

/-- Lexicographic comparison of alias entries, as Python `sorted` orders the
`(alias, serial)` tuples of `aliases.items()`. -/
def pairLeStr (p q : List Char × List Char) : Bool :=
  String.mk p.1 < String.mk q.1 ||
    (String.mk p.1 = String.mk q.1 && ¬ String.mk q.2 < String.mk p.2)

/-- The menu block printed at the top of every iteration of
`manage_device_aliases`. -/
def aliasMenu : List Event :=
  [Event.msg "\nDevice aliases".data, Event.msg "1) List aliases".data,
   Event.msg "2) Set alias".data, Event.msg "3) Remove alias".data,
   Event.msg "4) Resolve alias to serial".data, Event.msg "0) Back".data]

/-- `manage_device_aliases` (`advanced.py` lines 463–507) on an input script
and the loaded alias store.  The function receives `adb_path` but its body
never builds or runs an adb command; accordingly no `adb_path` parameter is
even needed to produce its trace. -/
def manageAliases : List (List Char) → List (List Char × List Char) → List Event
  | [], _ => []
  | c :: rest, aliases =>
    if pyStrip c = "0".data then aliasMenu
    else if pyStrip c = "1".data then
      aliasMenu ++
        (if aliases = [] then [Event.msg "(no aliases)".data]
         else (aliases.mergeSort pairLeStr).map
           (fun p => Event.msg (p.1 ++ " -> ".data ++ p.2))) ++
        manageAliases rest aliases
    else if pyStrip c = "2".data then
      match rest with
      | a :: s :: rest2 =>
        if pyStrip a ≠ [] ∧ pyStrip s ≠ [] then
          aliasMenu ++
            [Event.saveAliasesEv (dictUpd aliases (pyStrip a) (pyStrip s)),
              Event.msg "Alias saved.".data] ++
            manageAliases rest2 (dictUpd aliases (pyStrip a) (pyStrip s))
        else aliasMenu ++ manageAliases rest2 aliases
      | _ => aliasMenu
    else if pyStrip c = "3".data then
      match rest with
      | a :: rest2 =>
        if aliases.any (fun p => p.1 = pyStrip a) then
          aliasMenu ++
            [Event.saveAliasesEv (aliases.filter (fun p => ¬ p.1 = pyStrip a)),
              Event.msg "Alias removed.".data] ++
            manageAliases rest2 (aliases.filter (fun p => ¬ p.1 = pyStrip a))
        else aliasMenu ++ [Event.msg "Alias not found.".data] ++ manageAliases rest2 aliases
      | [] => aliasMenu
    else if pyStrip c = "4".data then
      match rest with
      | a :: rest2 =>
        aliasMenu ++
          [Event.msg (if dictGet aliases (pyStrip a) [] ≠ [] then
              pyStrip a ++ " -> ".data ++ dictGet aliases (pyStrip a) []
            else "Alias not found.".data)] ++
          manageAliases rest2 aliases
      | [] => aliasMenu
    else aliasMenu ++ [Event.msg "Unknown option.".data] ++ manageAliases rest aliases

/-- Concrete one-workflow store used to witness the `run_workflow` claim. -/
def c1ws : List Workflow :=
  [{ name? := some "w".data,
     steps := [[("action".data, "clear_data".data), ("package".data, "p".data)]] }]

/-- Concrete stored workflow list used to witness the `build_workflow`
claim. -/
def c9stored : List Workflow :=
  [{ name? := some "keep".data, steps := [] },
   { name? := some "test".data, steps := [[("action".data, "old".data)]] }]

/-- Concrete step-loop script used to witness the `build_workflow` claim:
one `clear_data` step, then a blank action to finish. -/
def c9rest : List (List Char) := ["clear_data".data, "com.a".data, []]

/-- Whether an event is a shell-out (a `run` or `run_streaming` call). -/
def isShellOut : Event → Bool
  | .adbRun _ => true
  | .adbStream _ => true
  | .rawRun _ => true
  | _ => false


/-- Python `needle in hay` on strings: substring containment. -/
def containsSub (needle : List Char) : List Char → Bool
  | [] => needle.isEmpty
  | c :: t => needle.isPrefixOf (c :: t) || containsSub needle t

/-- Python `s.strip(chr(34))`: drop leading and trailing double quotes. -/
def stripDQuotes (l : List Char) : List Char :=
  ((l.dropWhile (fun c => c = '"')).reverse.dropWhile (fun c => c = '"')).reverse

/-- Python `str.lower()` (ASCII). -/
def pyToLower (l : List Char) : List Char := l.map Char.toLower

/-- `p.startswith(pre)` on character lists. -/
def startsWithL (pre l : List Char) : Bool := pre.isPrefixOf l

/-- `p.split("=", 1)[1]` for a part that contains `=`: everything after the
first `=`. -/
def afterEq (p : List Char) : List Char := (p.dropWhile (fun c => c ≠ '=')).tail

/-- `line.split(":", 1)[1]` for a line that contains `:`. -/
def afterColon (l : List Char) : List Char := (l.dropWhile (fun c => c ≠ ':')).tail

/-- The APK metadata fields extracted by `apk_insight`. -/
structure Badging where
  package_name : List Char
  version_code : List Char
  version_name : List Char
  min_sdk : List Char
  target_sdk : List Char
deriving DecidableEq

/-- The inner `for p in parts` loop of `apk_insight` on a `package:` line:
quote-free whitespace-split parts, assigning the `name=`, `versionCode=` and
`versionName=` values (a later matching part overwrites an earlier one). -/
def scanParts (parts : List (List Char)) (b : Badging) : Badging :=
  parts.foldl (fun b p =>
    let b1 := if startsWithL "name=".data p then { b with package_name := afterEq p } else b
    let b2 := if startsWithL "versionCode=".data p then { b1 with version_code := afterEq p } else b1
    if startsWithL "versionName=".data p then { b2 with version_name := afterEq p } else b2) b

/-- One iteration of the `for line in out.splitlines()` loop of
`apk_insight`. -/
def scanLine (b : Badging) (rawLine : List Char) : Badging :=
  let line := pyStrip rawLine
  let b1 :=
    if startsWithL "package:".data line then
      scanParts (pyWords (line.filter (fun c => c ≠ chQuote))) b
    else b
  let b2 :=
    if startsWithL "sdkVersion:".data line then
      { b1 with min_sdk := pyStrip ((afterColon line).filter (fun c => c ≠ chQuote)) }
    else b1
  if startsWithL "targetSdkVersion:".data line then
    { b2 with target_sdk := pyStrip ((afterColon line).filter (fun c => c ≠ chQuote)) }
  else b2

/-- The metadata extraction of `apk_insight` over the full `aapt dump
badging` output.  (The source skips the loop entirely when `out` is empty;
folding over the empty line list leaves all fields empty, which is the same
result.) -/
def parseBadging (out : List Char) : Badging :=
  (splitLines out).foldl scanLine ⟨[], [], [], [], []⟩

/-- `value or "unknown"`. -/
def orUnknown (v : List Char) : List Char := if v = [] then "unknown".data else v

/-- The metadata report printed by `apk_insight`: the missing-`aapt` notice
when `aapt` produced no output, then the five fields with `unknown`
fallbacks. -/
def apkReportEvents (apk : List Char) (out : List Char) : List Event :=
  (if out = [] then
    [Event.msg "aapt not found or metadata unavailable. Install Android build-tools for richer APK insight.".data]
   else []) ++
  [Event.msg ("APK: ".data ++ apk),
   Event.msg ("Package: ".data ++ orUnknown (parseBadging out).package_name),
   Event.msg ("Version code: ".data ++ orUnknown (parseBadging out).version_code),
   Event.msg ("Version name: ".data ++ orUnknown (parseBadging out).version_name),
   Event.msg ("minSdk: ".data ++ orUnknown (parseBadging out).min_sdk),
   Event.msg ("targetSdk: ".data ++ orUnknown (parseBadging out).target_sdk)]

/-- The `versionCode=`/signing scan over the `dumpsys package` output in the
second half of `apk_insight`: the installed version code
(`line.split("=", 1)[1].split()[0].strip()`) and whether any line mentions
signing details. -/
def scanDumpsys (details : List Char) : List Char × Bool :=
  (splitLines details).foldl
    (fun acc rawLine =>
      let line := pyStrip rawLine
      let ic :=
        if startsWithL "versionCode=".data line then
          pyStrip ((pyWords (afterEq line)).headD [])
        else acc.1
      let hs :=
        if containsSub "signatures:".data (pyToLower line) ||
            containsSub "signing".data (pyToLower line) then true
        else acc.2
      (ic, hs))
    ([], false)

/-- The downgrade/signature warnings of `apk_insight` after the report, given
the parsed badging and the `dumpsys package` output. -/
def apkWarnEvents (b : Badging) (details : List Char) (mode : List Char) : List Event :=
  let sd := scanDumpsys details
  (if pyAllDigits sd.1 ∧ natValOf b.version_code < natValOf sd.1 then
    [Event.msg "Warning: APK versionCode is lower than installed version (potential downgrade).".data]
   else []) ++
  (let m := pyToLower (if mode = [] then "conservative".data else mode)
   if m = "strict".data ∧ sd.2 then
     [Event.msg "Warning: Strict mode enabled; signature mismatch cannot be verified reliably from dumpsys output.".data]
   else if m = "conservative".data ∧ sd.2 then
     (if containsSub "signature mismatch".data (pyToLower details) ||
         containsSub "inconsistent certificates".data (pyToLower details) ||
         containsSub "does not match".data (pyToLower details) then
       [Event.msg "Warning: Installed package signature may differ; install may fail.".data]
      else [])
   else [])

/-- `apk_insight` (`advanced.py` lines 739–804): `apkRaw` is the answer to the
path prompt, `fileExists` the `os.path.exists` result, `out` the `aapt dump
badging` stdout (empty when `run` raised), `details` the `dumpsys package`
stdout, and `mode` the `signature_check_mode` argument. -/
def apkInsight (apkRaw : List Char) (fileExists : Bool) (out : List Char)
    (details : List Char) (mode : List Char) : List Event :=
  let apk := stripDQuotes (pyStrip apkRaw)
  if apk = [] then [Event.msg "APK path is required.".data]
  else if fileExists = false then
    [Event.msg ("APK path does not exist: ".data ++ apk)]
  else
    Event.rawRun ["aapt".data, "dump".data, "badging".data, apk] ::
    apkReportEvents apk out ++
    (let b := parseBadging out
     if b.package_name ≠ [] ∧ pyAllDigits b.version_code then
       Event.adbRun ["shell".data, "dumpsys".data, "package".data, b.package_name] ::
         apkWarnEvents b details mode
     else [])

/-- Python `s.endswith(suf)` on character lists. -/
def endsWithL (suf l : List Char) : Bool := suf.reverse.isPrefixOf l.reverse

/-- Lexicographic (code-point) string comparison, as Python compares the
strings handed to `sorted`. -/
def lexLe : List Char → List Char → Bool
  | [], _ => true
  | _ :: _, [] => false
  | a :: as, b :: bs => if a < b then true else if a = b then lexLe as bs else false

/-- `lexLe` as a relation, for the sorting lemmas. -/
def LexLeP (a b : List Char) : Prop := lexLe a b = true

instance : DecidableRel LexLeP := fun a b => instDecidableEqBool _ _

instance : IsTotal (List Char) LexLeP where
  total := by
    intro x
    induction x with
    | nil => intro y; left; rfl
    | cons a as ih =>
      intro y
      cases y with
      | nil => right; rfl
      | cons b bs =>
        rcases lt_trichotomy a b with h | h | h
        · left; simp [LexLeP, lexLe, h]
        · subst h
          rcases ih bs with h2 | h2
        -- both sides reduce to the tails
          · left; simpa [LexLeP, lexLe] using h2
          · right; simpa [LexLeP, lexLe] using h2
        · right; simp [LexLeP, lexLe, h]

instance : IsTrans (List Char) LexLeP where
  trans := by
    intro x
    induction x with
    | nil => intro y z h1 h2; rfl
    | cons a as ih =>
      intro y z h1 h2
      cases y with
      | nil => simp [LexLeP, lexLe] at h1
      | cons b bs =>
        cases z with
        | nil => simp [LexLeP, lexLe] at h2
        | cons c cs =>
          simp only [LexLeP, lexLe] at h1 h2 ⊢
          by_cases hab : a < b
          · by_cases hbc : b < c
            · simp [lt_trans hab hbc]
            · by_cases hbc2 : b = c
              · subst hbc2; simp [hab]
              · simp [hbc, hbc2] at h2
          · by_cases hab2 : a = b
            · subst hab2
              simp only [lt_irrefl, if_false, if_pos rfl] at h1
              by_cases hbc : a < c
              · simp [hbc]
              · by_cases hbc2 : a = c
                · subst hbc2
                  simp only [lt_irrefl, if_false, if_pos rfl] at h2 ⊢
                  exact ih bs cs h1 h2
                · simp [hbc, hbc2] at h2
            · simp [hab, hab2] at h1

/-- An action record returned by a plugin's `register`: the `name` value
(empty models a missing or falsy name) and whether `run` is callable. -/
structure ActionRec where
  name : List Char
  runCallable : Bool
deriving DecidableEq

instance : Inhabited ActionRec := ⟨⟨[], false⟩⟩

/-- The outcome of loading one plugin file and calling its `register`:
loading may raise, `_load_plugin` may return `None`, `register` may be
missing or not callable, may raise, or may return a list of action records
(`name` plus whether `run` is callable). -/
inductive RegOutcome where
  | loadRaises (err : List Char)
  | loadsNone
  | noRegister
  | regRaises (err : List Char)
  | returns (acts : List ActionRec)
deriving DecidableEq

/-- The filename filter of `run_plugins`: `.py` files not starting with
`_`. -/
def eligiblePlugin (f : List Char) : Bool :=
  endsWithL ".py".data f && !(startsWithL "_".data f)

/-- The actions contributed by one plugin file: only dicts with a callable
`run` and a truthy `name`; a failing or register-less plugin contributes
none. -/
def validActionsOf : RegOutcome → List ActionRec
  | .returns acts => acts.filter (fun a => a.runCallable && a.name ≠ [])
  | _ => []

/-- The failure messages printed while processing one plugin file. -/
def pluginMsgsOf (f : List Char) : RegOutcome → List Event
  | .loadRaises e =>
    [Event.msg ("Failed loading plugin ".data ++ f ++ ": ".data ++ e)]
  | .regRaises e =>
    [Event.msg ("Failed registering actions in plugin ".data ++ f ++ ": ".data ++ e)]
  | _ => []

/-- The collection loop of `run_plugins`: processes the files in order,
accumulating valid actions and failure messages; a failing plugin is skipped
without aborting the rest. -/
def collectPlugins (sem : List Char → RegOutcome) :
    List (List Char) → List ActionRec × List Event
  | [] => ([], [])
  | f :: rest =>
    let r := collectPlugins sem rest
    (validActionsOf (sem f) ++ r.1, pluginMsgsOf f (sem f) ++ r.2)

/-- The plugin files considered by `run_plugins`: names ending in `.py` and
not starting with `_`, in sorted (code-point lexicographic) order.
(`sorted` is modelled by insertion sort; `os.listdir` never repeats a name,
so any correct sort yields the same list.) -/
def pluginFiles (listing : List (List Char)) : List (List Char) :=
  (listing.filter eligiblePlugin).insertionSort LexLeP

/-- `run_plugins` (`advanced.py` lines 690–736): `dirExists` is the
`os.path.isdir` result, `listing` the directory listing, `sem` the loading
semantics of each plugin file, `runErr` the exception message raised by a
selected action's `run` (if any), and `script` the selection prompt's
answers. -/
def runPlugins (dirExists : Bool) (listing : List (List Char))
    (sem : List Char → RegOutcome) (runErr : List Char → Option (List Char))
    (script : List (List Char)) : List Event :=
  if dirExists = false then
    [Event.msg "No plugins directory found: plugins".data]
  else if pluginFiles listing = [] then [Event.msg "No plugins found.".data]
  else
    let col := collectPlugins sem (pluginFiles listing)
    col.2 ++
    (if col.1 = [] then [Event.msg "No valid plugin actions found.".data]
     else
      Event.msg "Plugin actions:".data ::
      col.1.enum.map (fun p => Event.msg (natDigits (p.1 + 1) ++ ") ".data ++ p.2.name)) ++
      match script with
      | [] => []
      | choiceRaw :: _ =>
        let choice := pyStrip choiceRaw
        if ¬ (pyAllDigits choice = true ∧ 1 ≤ natValOf choice ∧
            natValOf choice ≤ col.1.length) then
          [Event.msg "Invalid choice.".data]
        else
          let sel := col.1.getD (natValOf choice - 1) default
          Event.pluginRun sel.name ::
            (match runErr sel.name with
             | some e => [Event.msg ("Plugin action failed: ".data ++ e)]
             | none => []))

/-- Concrete plugin directory listing used to witness the `run_plugins`
claim. -/
def c6listing : List (List Char) :=
  ["b.py".data, "_x.py".data, "a.py".data, "c.txt".data, "d.py".data]

/-- Concrete plugin semantics used to witness the `run_plugins` claim:
`b.py` raises while loading, `d.py` raises while registering, every other
file registers three actions of which only one is valid. -/
def c6sem : List Char → RegOutcome := fun f =>
  if f = "b.py".data then .loadRaises "boom".data
  else if f = "d.py".data then .regRaises "bad".data
  else .returns [{ name := "act".data, runCallable := true },
    { name := [], runCallable := true },
    { name := "no".data, runCallable := false }]

/-- A canonical `package:` line of `aapt dump badging` output. -/
def badgingLine1 (name vc vn : List Char) : List Char :=
  "package: name=".data ++ [chQuote] ++ name ++ [chQuote] ++
  " versionCode=".data ++ [chQuote] ++ vc ++ [chQuote] ++
  " versionName=".data ++ [chQuote] ++ vn ++ [chQuote]

/-- A canonical `sdkVersion:` line of `aapt dump badging` output. -/
def badgingLine2 (smin : List Char) : List Char :=
  "sdkVersion:".data ++ [chQuote] ++ smin ++ [chQuote]

/-- A canonical `targetSdkVersion:` line of `aapt dump badging` output. -/
def badgingLine3 (stgt : List Char) : List Char :=
  "targetSdkVersion:".data ++ [chQuote] ++ stgt ++ [chQuote]

/-- A canonical three-line `aapt dump badging` output carrying the five
metadata values. -/
def mkBadgingOut (name vc vn smin stgt : List Char) : List Char :=
  badgingLine1 name vc vn ++ '\n' :: (badgingLine2 smin ++ '\n' :: badgingLine3 stgt)

/-- A plain metadata token: no whitespace and no single quote, as values in
`aapt` output are. -/
def plainTok (l : List Char) : Bool := l.all (fun c => !pyIsSpace c && c ≠ chQuote)


/-- The chunk file path `os.path.join(out_dir, f"logcat_chunk_{chunk:03d}.txt")`
used by `scheduled_log_capture`. -/
def chunkPathOf (outDir : List Char) (chunk : Nat) : List Char :=
  outDir ++ "/".data ++ "logcat_chunk_".data ++ pad3 chunk ++ ".txt".data

/-- The body of one iteration of `scheduled_log_capture`: dump the device
log, write the (possibly redacted) output to the chunk file, gzip it, delete
the uncompressed file, and clear the device log.  `logcat n` is the device
log contents at iteration `n` and `redact` models `redact_if_enabled`. -/
def schedBlock (redact : List Char → List Char) (logcat : Nat → List Char)
    (outDir : List Char) (chunk : Nat) : List Event :=
  [Event.adbRun ["logcat".data, "-d".data],
   Event.fileWrite (chunkPathOf outDir chunk) (redact (logcat chunk)),
   Event.fileGzip (chunkPathOf outDir chunk) (chunkPathOf outDir chunk ++ ".gz".data),
   Event.fileRemove (chunkPathOf outDir chunk),
   Event.adbRun ["logcat".data, "-c".data]]

/-- The timed loop of `scheduled_log_capture`.  `reads` is the sequence of
`datetime.now().timestamp()` values the run observes (two per iteration: the
loop condition and the sleep check); an exhausted list truncates the
observation of a still-running loop. -/
def schedLoop (redact : List Char → List Char) (logcat : Nat → List Char)
    (outDir : List Char) (interval : Int) (endAt : Int) :
    List Int → Nat → List Event
  | [], _ => []
  | t :: reads, chunk =>
    if t < endAt then
      schedBlock redact logcat outDir chunk ++
      (match reads with
       | [] => []
       | t2 :: reads2 =>
         (if t2 < endAt then [Event.sleepFor interval] else []) ++
         schedLoop redact logcat outDir interval endAt reads2 (chunk + 1))
    else [Event.msg ("Scheduled logs saved in: ".data ++ outDir)]

/-- `scheduled_log_capture` (`advanced.py` lines 510–538): the two prompt
answers (defaulting to `5` minutes and `30` seconds), the run's clock
readings (`reads.head` is the reading that fixes `end_at`), the serial and
the timestamp string. -/
def scheduledLogCapture (redact : List Char → List Char) (logcat : Nat → List Char)
    (serial timestamp : List Char) (reads : List Int)
    (minutesIn intervalIn : List Char) : List Event :=
  let minutes_raw := if pyStrip minutesIn = [] then "5".data else pyStrip minutesIn
  let interval_raw := if pyStrip intervalIn = [] then "30".data else pyStrip intervalIn
  let outDir := "scheduled_logs_".data ++ serial ++ "_".data ++ timestamp
  Event.makeDirs outDir ::
  (match reads with
   | [] => []
   | t0 :: rest =>
     schedLoop redact logcat outDir (intervalOf interval_raw)
       (t0 + totalSecondsOf minutes_raw) rest 1)


/-- JSON values as the stores contain them.  `jint` covers JSON integers;
float literals, `NaN` and `Infinity` are outside this model (floating point
is not representable here) and the parser rejects them. -/
inductive Json where
  | jnull
  | jbool (b : Bool)
  | jint (n : Int)
  | jstr (s : List Char)
  | jarr (elems : List Json)
  | jobj (fields : List (List Char × Json))

/-- Lower-case hexadecimal digit, as `%04x` formatting produces. -/
def hexDig (d : Nat) : Char :=
  if d < 10 then Char.ofNat (48 + d) else Char.ofNat (87 + d)

/-- Four-digit lower-case hex form of `n < 0x10000`. -/
def hex4 (n : Nat) : List Char :=
  [hexDig (n / 4096 % 16), hexDig (n / 256 % 16), hexDig (n / 16 % 16), hexDig (n % 16)]

/-- The escape of one character in Python `json.dump`'s default
`ensure_ascii` mode: the two-character escapes, `\u` escapes for other
control and non-ASCII characters, and surrogate pairs beyond the basic
plane. -/
def escChar (c : Char) : List Char :=
  if c = '"' then ['\\', '"']
  else if c = '\\' then ['\\', '\\']
  else if c = '\n' then ['\\', 'n']
  else if c = '\r' then ['\\', 'r']
  else if c = '\t' then ['\\', 't']
  else if c = Char.ofNat 8 then ['\\', 'b']
  else if c = Char.ofNat 12 then ['\\', 'f']
  else if c.toNat < 32 then '\\' :: 'u' :: hex4 c.toNat
  else if c.toNat < 127 then [c]
  else if c.toNat < 65536 then '\\' :: 'u' :: hex4 c.toNat
  else
    '\\' :: 'u' :: hex4 (0xD800 + (c.toNat - 0x10000) / 0x400) ++
      ('\\' :: 'u' :: hex4 (0xDC00 + (c.toNat - 0x10000) % 0x400))

/-- The escaped body of a JSON string literal. -/
def escStr (s : List Char) : List Char := (s.map escChar).flatten

/-- A serialized JSON string literal. -/
def dumpStr (s : List Char) : List Char := '"' :: escStr s ++ ['"']

/-- `indent=2` indentation at nesting level `lvl`. -/
def jIndent (lvl : Nat) : List Char := List.replicate (2 * lvl) ' '

mutual
/-- `json.dump(v, f, indent=2)`: the item separator is a comma followed by a
newline and the next level's indentation, the key separator is `: `. -/
def dumpVal : Json → Nat → List Char
  | .jnull, _ => "null".data
  | .jbool true, _ => "true".data
  | .jbool false, _ => "false".data
  | .jint n, _ => intChars n
  | .jstr s, _ => dumpStr s
  | .jarr [], _ => "[]".data
  | .jarr (x :: xs), lvl =>
    '[' :: '\n' :: (jIndent (lvl + 1) ++ dumpVal x (lvl + 1) ++
      dumpItems xs (lvl + 1) ++ '\n' :: (jIndent lvl ++ [']']))
  | .jobj [], _ => [chLB, chRB]
  | .jobj (f :: fs), lvl =>
    chLB :: '\n' :: (jIndent (lvl + 1) ++ dumpField f (lvl + 1) ++
      dumpFields fs (lvl + 1) ++ '\n' :: (jIndent lvl ++ [chRB]))

/-- The remaining array items, each preceded by `,\n` and indentation. -/
def dumpItems : List Json → Nat → List Char
  | [], _ => []
  | x :: xs, lvl => ',' :: '\n' :: (jIndent lvl ++ dumpVal x lvl ++ dumpItems xs lvl)

/-- One serialized object field. -/
def dumpField : (List Char × Json) → Nat → List Char
  | (k, v), lvl => dumpStr k ++ ':' :: ' ' :: dumpVal v lvl

/-- The remaining object fields, each preceded by `,\n` and indentation. -/
def dumpFields : List (List Char × Json) → Nat → List Char
  | [], _ => []
  | f :: fs, lvl => ',' :: '\n' :: (jIndent lvl ++ dumpField f lvl ++ dumpFields fs lvl)
end

/-- The file content produced by `_write_json`: the serialized document plus
the trailing newline written explicitly. -/
def writeContent (v : Json) : List Char := dumpVal v 0 ++ ['\n']

/-- JSON whitespace. -/
def isJsonWs (c : Char) : Bool := c = ' ' || c = '\t' || c = '\n' || c = '\r'

/-- Skip JSON whitespace. -/
def skipWs (l : List Char) : List Char := l.dropWhile isJsonWs

/-- Value of one hexadecimal digit character. -/
def hexVal? (c : Char) : Option Nat :=
  if 48 ≤ c.toNat ∧ c.toNat ≤ 57 then some (c.toNat - 48)
  else if 97 ≤ c.toNat ∧ c.toNat ≤ 102 then some (c.toNat - 87)
  else if 65 ≤ c.toNat ∧ c.toNat ≤ 70 then some (c.toNat - 55)
  else none

/-- Value of a four-digit hexadecimal escape. -/
def hex4Val (h1 h2 h3 h4 : Char) : Option Nat :=
  match hexVal? h1, hexVal? h2, hexVal? h3, hexVal? h4 with
  | some a, some b, some c, some d => some (a * 4096 + b * 256 + c * 16 + d)
  | _, _, _, _ => none

/-- The single-character JSON escapes. -/
def escSimple (e : Char) : Option Char :=
  if e = '"' then some '"'
  else if e = '\\' then some '\\'
  else if e = '/' then some '/'
  else if e = 'b' then some (Char.ofNat 8)
  else if e = 'f' then some (Char.ofNat 12)
  else if e = 'n' then some '\n'
  else if e = 'r' then some '\r'
  else if e = 't' then some '\t'
  else none

mutual
/-- The body of a JSON string literal, after the opening quote: strict mode
(raw control characters are rejected), escapes handled by `parseEscape`. -/
def parseStrBody : List Char → Option (List Char × List Char)
  | [] => none
  | c :: rest =>
    if c = '"' then some ([], rest)
    else if c = '\\' then parseEscape rest
    else if c.toNat < 32 then none
    else (parseStrBody rest).map (fun p => (c :: p.1, p.2))

/-- After a backslash: a `\u` escape or a single-character escape. -/
def parseEscape : List Char → Option (List Char × List Char)
  | [] => none
  | e :: rest2 =>
    if e = 'u' then parseHexEsc rest2
    else
      match escSimple e with
      | some d => (parseStrBody rest2).map (fun p => (d :: p.1, p.2))
      | none => none

/-- After `\u`: four hex digits; a high surrogate must be followed by a low
surrogate (a lone surrogate has no counterpart over Lean's characters and is
rejected). -/
def parseHexEsc : List Char → Option (List Char × List Char)
  | h1 :: h2 :: h3 :: h4 :: rest3 =>
    match hex4Val h1 h2 h3 h4 with
    | none => none
    | some n =>
      if n < 0xD800 ∨ 0xE000 ≤ n then
        (parseStrBody rest3).map (fun p => (Char.ofNat n :: p.1, p.2))
      else if n < 0xDC00 then parseLowSur n rest3
      else none
  | _ => none

/-- After a high surrogate `\u` escape with value `n`: the mandatory low
surrogate, recombined into the astral-plane character. -/
def parseLowSur (n : Nat) : List Char → Option (List Char × List Char)
  | b1 :: u1 :: g1 :: g2 :: g3 :: g4 :: rest4 =>
    if b1 = '\\' ∧ u1 = 'u' then
      match hex4Val g1 g2 g3 g4 with
      | some m =>
        if 0xDC00 ≤ m ∧ m < 0xE000 then
          (parseStrBody rest4).map (fun p =>
            (Char.ofNat (0x10000 + (n - 0xD800) * 0x400 + (m - 0xDC00)) :: p.1, p.2))
        else none
      | none => none
    else none
  | _ => none
end

/-- ASCII decimal digit test. -/
def isDigitCh (c : Char) : Bool := 48 ≤ c.toNat && c.toNat ≤ 57

/-- An unsigned JSON integer literal: a maximal digit run, no leading zero,
not followed by a fraction or exponent (floats are outside the model). -/
def parseNatNum (l : List Char) : Option (Nat × List Char) :=
  let ds := l.takeWhile isDigitCh
  let rest := l.dropWhile isDigitCh
  if ds = [] then none
  else if 1 < ds.length ∧ ds.head? = some '0' then none
  else
    match rest with
    | c :: _ => if c = '.' ∨ c = 'e' ∨ c = 'E' then none else some (natValOf ds, rest)
    | [] => some (natValOf ds, [])

/-- A JSON number (integers only; a float literal is rejected, see
`Json`). -/
def parseNumber (l : List Char) : Option (Json × List Char) :=
  match l with
  | [] => none
  | c :: rest =>
    if c = '-' then (parseNatNum rest).map (fun p => (Json.jint (-(p.1 : Int)), p.2))
    else (parseNatNum (c :: rest)).map (fun p => (Json.jint (p.1 : Int), p.2))

/-- Expect a literal tail (the rest of `null`, `true` or `false`). -/
def takeLit (lit l : List Char) : Option (List Char) :=
  if lit.isPrefixOf l then some (l.drop lit.length) else none

/-- Collapse duplicate keys as building a Python `dict` does: the first
occurrence keeps its position, the last occurrence its value. -/
def dedupKeys (l : List (List Char × Json)) : List (List Char × Json) :=
  l.foldl (fun acc p => dictUpd acc p.1 p.2) []

mutual
/-- The JSON value scanner of `json.load`, with fuel (each level of nesting
consumes at least one input character, so `2·|input| + 2` fuel, as
`jsonLoad` supplies, never cuts a parse short). -/
def parseVal : Nat → List Char → Option (Json × List Char)
  | 0, _ => none
  | fuel + 1, l =>
    match skipWs l with
    | [] => none
    | c :: rest =>
      if c = '"' then (parseStrBody rest).map (fun p => (Json.jstr p.1, p.2))
      else if c = '[' then parseArrRest fuel rest
      else if c = chLB then
        (parseObjRest fuel rest).map (fun p => (Json.jobj (dedupKeys p.1), p.2))
      else if c = 'n' then (takeLit "ull".data rest).map (fun r => (Json.jnull, r))
      else if c = 't' then (takeLit "rue".data rest).map (fun r => (Json.jbool true, r))
      else if c = 'f' then (takeLit "alse".data rest).map (fun r => (Json.jbool false, r))
      else parseNumber (c :: rest)

/-- After `[`: an empty array or the first element and the item loop. -/
def parseArrRest : Nat → List Char → Option (Json × List Char)
  | 0, _ => none
  | fuel + 1, l =>
    match skipWs l with
    | c :: rest =>
      if c = ']' then some (Json.jarr [], rest)
      else
        (parseVal fuel l).bind (fun p =>
          (parseArrItems fuel p.2).map (fun q => (Json.jarr (p.1 :: q.1), q.2)))
    | [] => none

/-- After an array element: `,` and the next element, or `]`. -/
def parseArrItems : Nat → List Char → Option (List Json × List Char)
  | 0, _ => none
  | fuel + 1, l =>
    match skipWs l with
    | c :: rest =>
      if c = ',' then
        (parseVal fuel rest).bind (fun p =>
          (parseArrItems fuel p.2).map (fun q => (p.1 :: q.1, q.2)))
      else if c = ']' then some ([], rest)
      else none
    | [] => none

/-- After the opening brace: an empty object or the first field and the
field loop. -/
def parseObjRest : Nat → List Char → Option (List (List Char × Json) × List Char)
  | 0, _ => none
  | fuel + 1, l =>
    match skipWs l with
    | [] => none
    | c :: rest =>
      if c = chRB then some ([], rest)
      else if c = '"' then
        (parseStrBody rest).bind (fun pk =>
          match skipWs pk.2 with
          | ':' :: rest2 =>
            (parseVal fuel rest2).bind (fun pv =>
              (parseObjItems fuel pv.2).map (fun q => ((pk.1, pv.1) :: q.1, q.2)))
          | _ => none)
      else none

/-- After an object field: `,` and the next field, or the closing brace. -/
def parseObjItems : Nat → List Char → Option (List (List Char × Json) × List Char)
  | 0, _ => none
  | fuel + 1, l =>
    match skipWs l with
    | [] => none
    | c :: rest =>
      if c = ',' then
        match skipWs rest with
        | q :: rest2 =>
          if q = '"' then
            (parseStrBody rest2).bind (fun pk =>
              match skipWs pk.2 with
              | ':' :: rest3 =>
                (parseVal fuel rest3).bind (fun pv =>
                  (parseObjItems fuel pv.2).map (fun q2 => ((pk.1, pv.1) :: q2.1, q2.2)))
              | _ => none)
          else none
        | [] => none
      else if c = chRB then some ([], rest)
      else none
end

/-- `json.load` on a document: parse one value and require only whitespace
to remain. -/
def jsonLoad (s : List Char) : Option Json :=
  match parseVal (2 * s.length + 2) s with
  | some (v, rest) => if skipWs rest = [] then some v else none
  | none => none

/-- The observable state of a store file for `_read_json`: missing, present
but unreadable (`OSError`), or readable with some content. -/
inductive FileState where
  | absent
  | unreadable
  | content (s : List Char)

/-- `_read_json(path, default)`: the missing-file check, the `OSError` and
`JSONDecodeError` handler, and the parsed document otherwise. -/
def read_json (fs : FileState) (dflt : Json) : Json :=
  match fs with
  | .absent => dflt
  | .unreadable => dflt
  | .content s =>
    match jsonLoad s with
    | some v => v
    | none => dflt

/-- `load_workflows()` on a given state of the workflows file. -/
def load_workflows_m (fs : FileState) : Json := read_json fs (Json.jarr [])

/-- `load_profiles()` on a given state of the profiles file. -/
def load_profiles_m (fs : FileState) : Json := read_json fs (Json.jobj [])

/-- `load_aliases()` on a given state of the aliases file. -/
def load_aliases_m (fs : FileState) : Json := read_json fs (Json.jobj [])

/-- Pairwise-distinct keys, as the keys of a Python `dict` are. -/
def distinctKeys : List (List Char) → Bool
  | [] => true
  | k :: ks => !(ks.contains k) && distinctKeys ks

mutual
/-- Well-formed store value: every object's keys are distinct (a `dict`
cannot hold a duplicate key). -/
def jwf : Json → Bool
  | .jobj fs => distinctKeys (fs.map Prod.fst) && jwfFields fs
  | .jarr xs => jwfItems xs
  | _ => true

/-- `jwf` on array elements. -/
def jwfItems : List Json → Bool
  | [] => true
  | x :: xs => jwf x && jwfItems xs

/-- `jwf` on object field values. -/
def jwfFields : List (List Char × Json) → Bool
  | [] => true
  | f :: fs => jwf f.2 && jwfFields fs
end

/-- An alias store value: a JSON object with string values (a dict of
strings). -/
def isAliasStore (v : Json) : Bool :=
  match v with
  | .jobj fs =>
    distinctKeys (fs.map Prod.fst) &&
      fs.all (fun f => match f.2 with | .jstr _ => true | _ => false)
  | _ => false

/-- A profile store value: a JSON object whose values are dicts of
strings. -/
def isProfileStore (v : Json) : Bool :=
  match v with
  | .jobj fs => distinctKeys (fs.map Prod.fst) && fs.all (fun f => isAliasStore f.2)
  | _ => false

/-- A workflow store value: a list of string-keyed JSON dicts. -/
def isWorkflowStore (v : Json) : Bool :=
  match v with
  | .jarr xs =>
    xs.all (fun x => match x with
      | .jobj fs => distinctKeys (fs.map Prod.fst) && jwfFields fs
      | _ => false)
  | _ => false

mutual
/-- Fuel needed by `parseVal` on the serialized form of a value. -/
def jsize : Json → Nat
  | .jarr [] => 2
  | .jarr (x :: xs) => 2 + jsize x + itemsNeed xs
  | .jobj [] => 2
  | .jobj (f :: fs) => 2 + jsize f.2 + fieldsNeed fs
  | _ => 1

/-- Fuel needed by `parseArrItems` on remaining serialized items. -/
def itemsNeed : List Json → Nat
  | [] => 1
  | x :: xs => 1 + jsize x + itemsNeed xs

/-- Fuel needed by `parseObjItems` on remaining serialized fields. -/
def fieldsNeed : List (List Char × Json) → Nat
  | [] => 1
  | f :: fs => 1 + jsize f.2 + fieldsNeed fs
end


/-- Whether a character may directly follow a serialized integer without
extending it (the parser stops only before a non-digit that is not a
fraction or exponent marker). -/
def numOkB (tail : List Char) : Bool :=
  match tail.head? with
  | some c => !(isDigitCh c || c = '.' || c = 'e' || c = 'E')
  | none => true

/-- Concrete workflow-store value used to witness the round-trip claim. -/
def c3val : Json :=
  Json.jarr [Json.jobj [("name".data, Json.jstr "t".data),
    ("steps".data, Json.jarr [Json.jobj [("action".data, Json.jstr "shell".data),
      ("target".data, Json.jstr "ls".data)]])]]

/-- C10: the top-level menu offers exactly the categories device and session,
app and package, file transfer, logging and diagnostics, and utilities, plus
an exit entry, in that order, numbered 1–5 and 0. -/
theorem C10_top_menu :
    ADB_MENU_LINES.map (fun s => s.drop 3) =
      [ "Device and session", "App and package", "File transfer",
        "Logging and diagnostics", "Utilities", "Exit" ] ∧
    ADB_MENU_LINES.map (fun s => s.take 2) =
      ["1)", "2)", "3)", "4)", "5)", "0)"] := by
  constructor <;> rfl

/-- C8: every scheduled capture runs for at least 30 seconds with chunks at
least 5 seconds apart; integer inputs `m`, `i` give `max 30 (m*60)` and
`max 5 i`, non-integer inputs give the fallbacks 300 and 30. -/
theorem C8_duration_clamp (mraw iraw : List Char) :
    30 ≤ totalSecondsOf mraw ∧
    5 ≤ intervalOf iraw ∧
    (∀ m : Int, pyParseInt mraw = some m → totalSecondsOf mraw = max 30 (m * 60)) ∧
    (pyParseInt mraw = none → totalSecondsOf mraw = 300) ∧
    (∀ i : Int, pyParseInt iraw = some i → intervalOf iraw = max 5 i) ∧
    (pyParseInt iraw = none → intervalOf iraw = 30) := by
  refine ⟨?_, ?_, ?_, ?_, ?_, ?_⟩
  · unfold totalSecondsOf
    cases pyParseInt mraw with
    | none => norm_num
    | some m => exact le_max_left _ _
  · unfold intervalOf
    cases pyParseInt iraw with
    | none => norm_num
    | some i => exact le_max_left _ _
  · intro m hm; unfold totalSecondsOf; rw [hm]
  · intro hm; unfold totalSecondsOf; rw [hm]
  · intro i hi; unfold intervalOf; rw [hi]
  · intro hi; unfold intervalOf; rw [hi]

/-- Witness for C8 at concrete inputs `"7"` and `"abc"`. -/
theorem C8_duration_clamp_witness :
    totalSecondsOf "7".data = max 30 (7 * 60) ∧ intervalOf "abc".data = 30 := by
  refine ⟨(C8_duration_clamp "7".data "abc".data).2.2.1 7 ?_,
          (C8_duration_clamp "7".data "abc".data).2.2.2.2.2 ?_⟩ <;> decide

/-- The step loop of `run_workflow` handles the steps strictly in list order,
one at a time: its trace is the concatenation of the per-step traces. -/
theorem runSteps_eq_join (l : List Step) : runSteps l = (l.map stepEvents).flatten := by
  induction l with
  | nil => rfl
  | cons st rest ih => simp [runSteps, ih]

/-- C1: for every stored workflow list and valid selection, `run_workflow`
executes the selected workflow's steps strictly in list order, dispatching on
each step's `action` value exactly as the claim describes, and prints
`Workflow complete.` after the last step. -/
theorem C1_run_workflow_dispatch (ws : List Workflow) (choiceRaw : List Char)
    (rest : List (List Char)) (k : Nat)
    (hne : ws ≠ [])
    (hdig : pyAllDigits (pyStrip choiceRaw) = true)
    (hval : natValOf (pyStrip choiceRaw) = k)
    (hk1 : 1 ≤ k) (hk2 : k ≤ ws.length) :
    runWorkflow ws (choiceRaw :: rest) =
      listWorkflowsEvents ws ++
        Event.msg ("Running workflow: ".data ++
          (ws.getD (k - 1) default).name?.getD "unnamed".data) ::
        (((ws.getD (k - 1) default).steps.map stepEvents).flatten ++
          [Event.msg "Workflow complete.".data]) ∧
    (∀ st : Step,
      (stepGet st "action".data [] = "install_apk".data →
        stepEvents st =
          if stepGet st "apk_path".data [] = [] then
            [Event.msg "Skipped install_apk (missing apk_path).".data]
          else [Event.adbRun ["install".data, "-r".data, stepGet st "apk_path".data []]]) ∧
      (stepGet st "action".data [] = "clear_data".data →
        stepEvents st =
          if stepGet st "package".data [] = [] then []
          else [Event.adbRun ["shell".data, "pm".data, "clear".data,
            stepGet st "package".data []]]) ∧
      (stepGet st "action".data [] = "launch_app".data →
        stepEvents st =
          if stepGet st "package".data [] = [] then
            [Event.msg "Skipped launch_app (missing package).".data]
          else if stepGet st "activity".data [] ≠ [] then
            [Event.adbRun ["shell".data, "am".data, "start".data, "-n".data,
              stepGet st "package".data [] ++ "/".data ++ stepGet st "activity".data []]]
          else
            [Event.adbRun ["shell".data, "monkey".data, "-p".data,
              stepGet st "package".data [], "-c".data,
              "android.intent.category.LAUNCHER".data, "1".data]]) ∧
      (stepGet st "action".data [] = "tail_filtered_logcat".data →
        stepEvents st =
          [Event.adbStream ["logcat".data,
            stepGet st "tag".data "*".data ++ ":".data ++
              stepGet st "priority".data "I".data, "*:S".data]]) ∧
      (stepGet st "action".data [] ∉
          ["install_apk".data, "clear_data".data, "launch_app".data,
            "tail_filtered_logcat".data] →
        stepEvents st = [Event.msg ("Unknown step action: ".data ++
          stepGet st "action".data [])])) := by
  constructor
  · unfold runWorkflow
    rw [if_neg hne]
    have hcond : pyAllDigits (pyStrip choiceRaw) = true ∧
        1 ≤ natValOf (pyStrip choiceRaw) ∧ natValOf (pyStrip choiceRaw) ≤ ws.length := by
      rw [hval]; exact ⟨hdig, hk1, hk2⟩
    simp only [hval] at hcond ⊢
    rw [if_neg (not_not_intro hcond)]
    simp only [runSteps_eq_join]
    rfl
  · intro st
    refine ⟨?_, ?_, ?_, ?_, ?_⟩
    · intro h; simp [stepEvents, h]
    · intro h; simp [stepEvents, h]
    · intro h; simp [stepEvents, h]
    · intro h; simp [stepEvents, h]
    · intro h
      simp only [List.mem_cons, List.mem_singleton, not_or] at h
      obtain ⟨h1, h2, h3, h4, -⟩ := h
      simp [stepEvents, h1, h2, h3, h4]

/-- Witness for C1: a one-workflow store with a `clear_data` step, selected
by entering `1`. -/
theorem C1_run_workflow_dispatch_witness :
    runWorkflow c1ws ["1".data] =
      listWorkflowsEvents c1ws ++
        Event.msg ("Running workflow: ".data ++
          (c1ws.getD (1 - 1) default).name?.getD "unnamed".data) ::
        (((c1ws.getD (1 - 1) default).steps.map stepEvents).flatten ++
          [Event.msg "Workflow complete.".data]) :=
  (C1_run_workflow_dispatch c1ws "1".data [] 1 (by decide) (by decide) (by decide)
    (by decide) (by decide)).1

/-- C9: when `build_workflow` saves, the saved list replaces every workflow
of the entered name by the single newly built one, appended at the end, and
preserves all other workflows unchanged and in order; with an empty name or
no steps the store is not written. -/
theorem C9_build_workflow_unique (stored : List Workflow) (nameRaw : List Char)
    (rest : List (List Char)) :
    (pyStrip nameRaw ≠ [] → (stepLoop rest).completed = true → (stepLoop rest).steps ≠ [] →
      (buildWorkflow stored (nameRaw :: rest)).saved =
        some (stored.filter (fun w => w.name? ≠ some (pyStrip nameRaw)) ++
          [{ name? := some (pyStrip nameRaw), steps := (stepLoop rest).steps }]) ∧
      ∀ L, (buildWorkflow stored (nameRaw :: rest)).saved = some L →
        L.countP (fun w => decide (w.name? = some (pyStrip nameRaw))) = 1 ∧
        L.filter (fun w => w.name? ≠ some (pyStrip nameRaw)) =
          stored.filter (fun w => w.name? ≠ some (pyStrip nameRaw))) ∧
    ((pyStrip nameRaw = [] ∨
        ((stepLoop rest).completed = true ∧ (stepLoop rest).steps = [])) →
      (buildWorkflow stored (nameRaw :: rest)).saved = none ∧
      ∀ e ∈ (buildWorkflow stored (nameRaw :: rest)).events,
        ∀ l, e ≠ Event.saveWorkflowsEv l) := by
  constructor
  · intro h1 h2 h3
    have hsaved : (buildWorkflow stored (nameRaw :: rest)).saved =
        some (stored.filter (fun w => w.name? ≠ some (pyStrip nameRaw)) ++
          [{ name? := some (pyStrip nameRaw), steps := (stepLoop rest).steps }]) := by
      simp only [buildWorkflow]
      rw [if_neg h1, if_neg (by simp [h2]), if_neg h3]
    refine ⟨hsaved, ?_⟩
    intro L hL
    rw [hsaved] at hL
    injection hL with hL
    subst hL
    constructor
    · rw [List.countP_append]
      have h0 : (stored.filter (fun w => w.name? ≠ some (pyStrip nameRaw))).countP
          (fun w => decide (w.name? = some (pyStrip nameRaw))) = 0 := by
        rw [List.countP_eq_zero]
        intro w hw
        have := List.of_mem_filter hw
        simp at this ⊢
        exact this
      rw [h0]
      simp
    · rw [List.filter_append, List.filter_filter]
      simp
  · intro h
    rcases h with h1 | ⟨h2, h3⟩
    · simp only [buildWorkflow]
      rw [if_pos h1]
      exact ⟨rfl, by intro e he l; rintro rfl; simp at he⟩
    · simp only [buildWorkflow]
      by_cases h1 : pyStrip nameRaw = []
      · rw [if_pos h1]
        exact ⟨rfl, by intro e he l; simp at he; subst he; simp⟩
      · rw [if_neg h1, if_neg (by simp [h2]), if_pos h3]
        refine ⟨rfl, ?_⟩
        intro e he l
        rintro rfl
        simp at he

/-- Witness for C9 at a concrete store and script: the workflow named `test`
is replaced by the newly built one. -/
theorem C9_build_workflow_unique_witness :
    (buildWorkflow c9stored ("test".data :: c9rest)).saved =
      some (c9stored.filter (fun w => w.name? ≠ some (pyStrip "test".data)) ++
        [{ name? := some (pyStrip "test".data), steps := (stepLoop c9rest).steps }]) :=
  ((C9_build_workflow_unique c9stored "test".data c9rest).1 (by decide) (by decide)
    (by decide)).1

/-- C4 counterexample: a full run of `manage_device_aliases` (enter `0`)
produces a non-empty trace that contains no `run` or `run_streaming`
invocation at all, so not every operation shells out to `adb`. -/
theorem C4_counterexample :
    manageAliases ["0".data] [] ≠ [] ∧
    (manageAliases ["0".data] []).all (fun e => !isShellOut e) = true := by
  constructor <;> decide

/-- A list of printed messages contains no shell-out event. -/
theorem all_shellfree_msgmap {α : Type} (g : α → List Char) (l : List α) :
    ((l.map (fun p => Event.msg (g p))).all (fun e => !isShellOut e)) = true := by
  induction l with
  | nil => rfl
  | cons a t iht => simp [isShellOut, iht]

/-- Helper for the amended C4: no trace of `manage_device_aliases` contains a
shell-out event, by induction on the length of the input script. -/
theorem manageAliases_shellfree (n : Nat) :
    ∀ (script : List (List Char)) (aliases : List (List Char × List Char)),
      script.length ≤ n →
      (manageAliases script aliases).all (fun e => !isShellOut e) = true := by
  induction n with
  | zero =>
    intro script aliases h
    have hs : script = [] := by cases script <;> simp_all
    subst hs; rfl
  | succ n ih =>
    intro script aliases h
    match script with
    | [] => rfl
    | [c] =>
      rw [manageAliases.eq_4]
      split_ifs <;>
        first
          | decide
          | (subst aliases; decide)
          | (simp only [List.all_append, List.all_map, manageAliases.eq_1]
             simp [Function.comp, isShellOut, aliasMenu, all_shellfree_msgmap]
             try (intro x x1 x2 hmem hx; subst hx; rfl))
    | [c, a] =>
      simp only [List.length_cons] at h
      have i1 : ∀ al, (manageAliases [a] al).all (fun e => !isShellOut e) = true :=
        fun al => ih _ al (by simp; omega)
      have i2 : ∀ al, (manageAliases [] al).all (fun e => !isShellOut e) = true :=
        fun al => ih _ al (by simp)
      rw [manageAliases.eq_3 aliases c a []
        (by intro p act r1 hh; simp at hh)]
      split_ifs <;>
        first
          | decide
          | (simp only [List.all_append, List.all_map, i1, i2,
               Bool.and_true, Bool.true_and]
             first
               | decide
               | (simp [Function.comp, isShellOut, aliasMenu, all_shellfree_msgmap]
                  try (intro x x1 x2 hmem hx; subst hx; rfl)))
    | c :: p :: act :: rest2 =>
      simp only [List.length_cons] at h
      have i1 : ∀ al, (manageAliases (p :: act :: rest2) al).all
          (fun e => !isShellOut e) = true :=
        fun al => ih _ al (by simp; omega)
      have i2 : ∀ al, (manageAliases (act :: rest2) al).all
          (fun e => !isShellOut e) = true :=
        fun al => ih _ al (by simp; omega)
      have i3 : ∀ al, (manageAliases rest2 al).all (fun e => !isShellOut e) = true :=
        fun al => ih _ al (by omega)
      rw [manageAliases.eq_2]
      split_ifs <;>
        first
          | decide
          | (simp only [List.all_append, List.all_map, i1, i2, i3,
               Bool.and_true, Bool.true_and]
             first
               | decide
               | (simp [Function.comp, isShellOut, aliasMenu, all_shellfree_msgmap]
                  try (intro x x1 x2 hmem hx; subst hx; rfl)))

/-- C4 amended: contrary to the claim, `manage_device_aliases` never invokes
`run` or `run_streaming` on any input script and alias store: its trace
contains no shell-out event. -/
theorem C4_manage_aliases_no_shellout (script : List (List Char))
    (aliases : List (List Char × List Char)) :
    (manageAliases script aliases).all (fun e => !isShellOut e) = true :=
  manageAliases_shellfree script.length script aliases le_rfl

/-- A list is a Boolean prefix of itself followed by anything. -/
theorem isPrefixOf_self_append (p r : List Char) : p.isPrefixOf (p ++ r) = true := by
  induction p with
  | nil => simp
  | cons a t ih => simp [List.isPrefixOf_cons₂, ih]

/-- When the candidate prefix is no longer than the first summand, only that
summand matters. -/
theorem isPrefixOf_append_of_le (p : List Char) :
    ∀ (q r : List Char), p.length ≤ q.length →
      p.isPrefixOf (q ++ r) = p.isPrefixOf q := by
  induction p with
  | nil => intro q r h; simp
  | cons a t ih =>
    intro q r h
    cases q with
    | nil => simp at h
    | cons b u =>
      simp only [List.cons_append, List.isPrefixOf_cons₂]
      rw [ih u r (by simp at h; omega)]

/-- Tokens without whitespace contain no newline. -/
theorem plainTok_no_nl {l : List Char} (h : plainTok l = true) :
    ∀ c ∈ l, c ≠ '\n' := by
  intro c hc heq
  subst heq
  simp [plainTok, List.all_eq_true] at h
  exact absurd (h _ hc).1 (by decide)

/-- Tokens of `plainTok` contain no whitespace character. -/
theorem plainTok_no_space {l : List Char} (h : plainTok l = true) :
    ∀ c ∈ l, pyIsSpace c = false := by
  intro c hc
  simp [plainTok, List.all_eq_true] at h
  simpa using (h _ hc).1

/-- Tokens of `plainTok` contain no single-quote character. -/
theorem plainTok_no_quote {l : List Char} (h : plainTok l = true) :
    ∀ c ∈ l, ¬ c = chQuote := by
  intro c hc
  simp [plainTok, List.all_eq_true] at h
  exact (h _ hc).2

/-- `splitLinesAux` splits off a newline-free chunk before a newline. -/
theorem splitLinesAux_mid (l : List Char) (hl : ∀ c ∈ l, c ≠ '\n') :
    ∀ (rest acc : List Char),
      splitLinesAux (l ++ '\n' :: rest) acc =
        (acc.reverse ++ l) :: splitLinesAux rest [] := by
  induction l with
  | nil => intro rest acc; simp [splitLinesAux]
  | cons c t ih =>
    intro rest acc
    have hc : c ≠ '\n' := hl c (by simp)
    simp only [List.cons_append, splitLinesAux, if_neg hc, List.append_eq]
    rw [ih (fun d hd => hl d (by simp [hd])) rest (c :: acc)]
    simp

/-- `splitLinesAux` on a trailing newline-free chunk. -/
theorem splitLinesAux_last (l : List Char) (hl : ∀ c ∈ l, c ≠ '\n') :
    ∀ acc : List Char, acc.reverse ++ l ≠ [] →
      splitLinesAux l acc = [acc.reverse ++ l] := by
  induction l with
  | nil =>
    intro acc hne
    have : acc ≠ [] := by simpa using hne
    simp [splitLinesAux, this]
  | cons c t ih =>
    intro acc hne
    have hc : c ≠ '\n' := hl c (by simp)
    simp only [splitLinesAux, if_neg hc, List.append_eq]
    rw [ih (fun d hd => hl d (by simp [hd])) (c :: acc) (by simp)]
    simp

/-- `pyWordsAux` flushes a whitespace-free word at a space. -/
theorem pyWordsAux_word_space (w : List Char) (hw : ∀ c ∈ w, pyIsSpace c = false) :
    ∀ (rest acc : List Char), acc.reverse ++ w ≠ [] →
      pyWordsAux (w ++ ' ' :: rest) acc =
        (acc.reverse ++ w) :: pyWordsAux rest [] := by
  induction w with
  | nil =>
    intro rest acc hne
    have : acc ≠ [] := by simpa using hne
    simp [pyWordsAux, pyIsSpace, this]
  | cons c t ih =>
    intro rest acc hne
    have hc : pyIsSpace c = false := hw c (by simp)
    simp only [List.cons_append, pyWordsAux, hc, Bool.false_eq_true, if_neg,
      List.append_eq]
    rw [ih (fun d hd => hw d (by simp [hd])) rest (c :: acc) (by simp)]
    simp

/-- `pyWordsAux` on a trailing whitespace-free word. -/
theorem pyWordsAux_word_end (w : List Char) (hw : ∀ c ∈ w, pyIsSpace c = false) :
    ∀ acc : List Char, acc.reverse ++ w ≠ [] →
      pyWordsAux w acc = [acc.reverse ++ w] := by
  induction w with
  | nil =>
    intro acc hne
    have : acc ≠ [] := by simpa using hne
    simp [pyWordsAux, this]
  | cons c t ih =>
    intro acc hne
    have hc : pyIsSpace c = false := hw c (by simp)
    simp only [pyWordsAux, hc, Bool.false_eq_true, if_neg, List.append_eq]
    rw [ih (fun d hd => hw d (by simp [hd])) (c :: acc) (by simp)]
    simp

/-- `pyStrip` leaves a string alone when its first and last characters are
not whitespace. -/
theorem pyStrip_eq_self (l : List Char)
    (h1 : ∀ c, l.head? = some c → pyIsSpace c = false)
    (h2 : ∀ c, l.getLast? = some c → pyIsSpace c = false) : pyStrip l = l := by
  unfold pyStrip
  have hd : l.dropWhile pyIsSpace = l := by
    cases l with
    | nil => rfl
    | cons a t => simp [List.dropWhile_cons, h1 a rfl]
  rw [hd]
  have hr : l.reverse.dropWhile pyIsSpace = l.reverse := by
    cases hrev : l.reverse with
    | nil => rfl
    | cons b r =>
      have hb : l.getLast? = some b := by
        rw [← List.head?_reverse, hrev]; rfl
      simp [List.dropWhile_cons, h2 b hb]
  rw [hr, List.reverse_reverse]

/-- A prefix of `q ++ r` that is neither a prefix of `q` nor an extension of
`q` does not exist: both comparisons failing refutes the combined one. -/
theorem isPrefixOf_append_false (p : List Char) :
    ∀ (q r : List Char), p.isPrefixOf q = false → q.isPrefixOf p = false →
      p.isPrefixOf (q ++ r) = false := by
  induction p with
  | nil => intro q r h1 h2; simp at h1
  | cons a t ih =>
    intro q r h1 h2
    cases q with
    | nil => simp at h2
    | cons b u =>
      simp only [List.cons_append, List.isPrefixOf_cons₂] at h1 h2 ⊢
      cases hab : (a == b) with
      | false => simp
      | true =>
        have hba : (b == a) = true := by
          simp_all [beq_iff_eq]
        simp only [hab, hba, Bool.true_and] at h1 h2 ⊢
        exact ih u r h1 h2

/-- Stripping a plain token changes nothing. -/
theorem pyStrip_plain {l : List Char} (h : plainTok l = true) : pyStrip l = l :=
  pyStrip_eq_self l (fun c hc => plainTok_no_space h c (List.mem_of_mem_head? hc))
    (fun c hc => plainTok_no_space h c (List.mem_of_mem_getLast? hc))

/-- Quote removal leaves a plain token alone. -/
theorem filter_plain {l : List Char} (h : plainTok l = true) :
    l.filter (fun c => c ≠ chQuote) = l := by
  rw [List.filter_eq_self]
  intro a ha
  simpa using plainTok_no_quote h a ha

/-- Two-summand variant of `pyWordsAux_word_space`. -/
theorem pyWordsAux_word2_space (u v : List Char)
    (hu : ∀ c ∈ u, pyIsSpace c = false) (hv : ∀ c ∈ v, pyIsSpace c = false) :
    ∀ (rest : List Char), u ++ v ≠ [] →
      pyWordsAux (u ++ (v ++ ' ' :: rest)) [] = (u ++ v) :: pyWordsAux rest [] := by
  intro rest hne
  rw [← List.append_assoc]
  have := pyWordsAux_word_space (u ++ v)
    (by intro c hc; rcases List.mem_append.mp hc with h | h
        · exact hu c h
        · exact hv c h) rest [] (by simpa using hne)
  simpa using this

/-- Two-summand variant of `pyWordsAux_word_end`. -/
theorem pyWordsAux_word2_end (u v : List Char)
    (hu : ∀ c ∈ u, pyIsSpace c = false) (hv : ∀ c ∈ v, pyIsSpace c = false)
    (hne : u ++ v ≠ []) :
    pyWordsAux (u ++ v) [] = [u ++ v] := by
  have := pyWordsAux_word_end (u ++ v)
    (by intro c hc; rcases List.mem_append.mp hc with h | h
        · exact hu c h
        · exact hv c h) [] (by simpa using hne)
  simpa using this

/-- Scanning a canonical `package:` line assigns the three package fields. -/
theorem scanLine_badging1 (name vc vn : List Char)
    (hn : plainTok name = true) (hc : plainTok vc = true) (hv : plainTok vn = true)
    (b : Badging) :
    scanLine b (badgingLine1 name vc vn) =
      { b with package_name := name, version_code := vc, version_name := vn } := by
  have hst1 : pyStrip (badgingLine1 name vc vn) = badgingLine1 name vc vn := by
    apply pyStrip_eq_self
    · intro c hcq
      have h0 : (badgingLine1 name vc vn).head? = some 'p' := by
        unfold badgingLine1
        simp only [List.append_assoc, List.head?_append]
        rfl
      rw [h0] at hcq
      injection hcq with hcq
      subst hcq
      decide
    · intro c hcq
      have h0 : (badgingLine1 name vc vn).getLast? = some chQuote :=
        List.getLast?_concat _
      rw [h0] at hcq
      injection hcq with hcq
      subst hcq
      decide
  have hsw1 : startsWithL "package:".data (badgingLine1 name vc vn) = true := by
    unfold startsWithL badgingLine1
    simp only [List.append_assoc]
    rw [isPrefixOf_append_of_le _ _ _ (by decide)]
    decide
  have hsw2 : startsWithL "sdkVersion:".data (badgingLine1 name vc vn) = false := by
    unfold startsWithL badgingLine1
    simp only [List.append_assoc]
    exact isPrefixOf_append_false _ _ _ (by decide) (by decide)
  have hsw3 : startsWithL "targetSdkVersion:".data (badgingLine1 name vc vn) = false := by
    unfold startsWithL badgingLine1
    simp only [List.append_assoc]
    exact isPrefixOf_append_false _ _ _ (by decide) (by decide)
  have hfilt : (badgingLine1 name vc vn).filter (fun c => c ≠ chQuote) =
      "package: name=".data ++ (name ++ (" versionCode=".data ++
        (vc ++ (" versionName=".data ++ vn)))) := by
    unfold badgingLine1
    simp only [List.append_assoc, List.filter_append]
    rw [filter_plain hn, filter_plain hc, filter_plain hv,
      (by decide : ("package: name=".data : List Char).filter (fun c => c ≠ chQuote) =
        "package: name=".data),
      (by decide : ((" versionCode=".data : List Char)).filter (fun c => c ≠ chQuote) =
        " versionCode=".data),
      (by decide : ((" versionName=".data : List Char)).filter (fun c => c ≠ chQuote) =
        " versionName=".data),
      (by decide : ([chQuote] : List Char).filter (fun c => c ≠ chQuote) = [])]
    simp
  have hwords : pyWords ("package: name=".data ++ (name ++ (" versionCode=".data ++
      (vc ++ (" versionName=".data ++ vn))))) =
      ["package:".data, "name=".data ++ name, "versionCode=".data ++ vc,
        "versionName=".data ++ vn] := by
    unfold pyWords
    simp only [List.cons_append, List.nil_append, List.append_assoc]
    simp [pyWordsAux, pyIsSpace]
    rw [pyWordsAux_word_space name (plainTok_no_space hn) _ _ (by simp)]
    simp [pyWordsAux, pyIsSpace]
    rw [pyWordsAux_word_space vc (plainTok_no_space hc) _ _ (by simp)]
    simp [pyWordsAux, pyIsSpace]
    rw [pyWordsAux_word_end vn (plainTok_no_space hv) _ (by simp)]
    simp
  have c11 : startsWithL "name=".data "package:".data = false := by decide
  have c12 : startsWithL "versionCode=".data "package:".data = false := by decide
  have c13 : startsWithL "versionName=".data "package:".data = false := by decide
  have c21 : startsWithL "name=".data ("name=".data ++ name) = true :=
    isPrefixOf_self_append _ _
  have c22 : startsWithL "versionCode=".data ("name=".data ++ name) = false :=
    isPrefixOf_append_false _ _ _ (by decide) (by decide)
  have c23 : startsWithL "versionName=".data ("name=".data ++ name) = false :=
    isPrefixOf_append_false _ _ _ (by decide) (by decide)
  have c31 : startsWithL "name=".data ("versionCode=".data ++ vc) = false := by
    unfold startsWithL
    rw [isPrefixOf_append_of_le _ _ _ (by decide)]
    decide
  have c32 : startsWithL "versionCode=".data ("versionCode=".data ++ vc) = true :=
    isPrefixOf_self_append _ _
  have c33 : startsWithL "versionName=".data ("versionCode=".data ++ vc) = false :=
    isPrefixOf_append_false _ _ _ (by decide) (by decide)
  have c41 : startsWithL "name=".data ("versionName=".data ++ vn) = false := by
    unfold startsWithL
    rw [isPrefixOf_append_of_le _ _ _ (by decide)]
    decide
  have c42 : startsWithL "versionCode=".data ("versionName=".data ++ vn) = false :=
    isPrefixOf_append_false _ _ _ (by decide) (by decide)
  have c43 : startsWithL "versionName=".data ("versionName=".data ++ vn) = true :=
    isPrefixOf_self_append _ _
  have a2 : afterEq ("name=".data ++ name) = name := by
    show afterEq ('n' :: 'a' :: 'm' :: 'e' :: '=' :: name) = name
    simp [afterEq, List.dropWhile_cons]
  have a3 : afterEq ("versionCode=".data ++ vc) = vc := by
    show afterEq ('v' :: 'e' :: 'r' :: 's' :: 'i' :: 'o' :: 'n' :: 'C' :: 'o' :: 'd' ::
      'e' :: '=' :: vc) = vc
    simp [afterEq, List.dropWhile_cons]
  have a4 : afterEq ("versionName=".data ++ vn) = vn := by
    show afterEq ('v' :: 'e' :: 'r' :: 's' :: 'i' :: 'o' :: 'n' :: 'N' :: 'a' :: 'm' ::
      'e' :: '=' :: vn) = vn
    simp [afterEq, List.dropWhile_cons]
  simp only [scanLine, hst1, hsw1, hsw2, hsw3, if_true, Bool.false_eq_true, if_false,
    hfilt, hwords]
  simp only [scanParts, List.foldl_cons, List.foldl_nil, c11, c12, c13, c21, c22, c23,
    c31, c32, c33, c41, c42, c43, a2, a3, a4, if_true, Bool.false_eq_true, if_false,
    eq_self_iff_true]

/-- Scanning a canonical `sdkVersion:` line assigns `min_sdk`. -/
theorem scanLine_badging2 (smin : List Char) (hs : plainTok smin = true) (b : Badging) :
    scanLine b (badgingLine2 smin) = { b with min_sdk := smin } := by
  have hst2 : pyStrip (badgingLine2 smin) = badgingLine2 smin := by
    apply pyStrip_eq_self
    · intro c hcq
      have h0 : (badgingLine2 smin).head? = some 's' := by
        unfold badgingLine2
        simp only [List.append_assoc, List.head?_append]
        rfl
      rw [h0] at hcq
      injection hcq with hcq
      subst hcq
      decide
    · intro c hcq
      have h0 : (badgingLine2 smin).getLast? = some chQuote := List.getLast?_concat _
      rw [h0] at hcq
      injection hcq with hcq
      subst hcq
      decide
  have d1 : startsWithL "package:".data (badgingLine2 smin) = false := by
    unfold startsWithL badgingLine2
    simp only [List.append_assoc]
    exact isPrefixOf_append_false _ _ _ (by decide) (by decide)
  have d2 : startsWithL "sdkVersion:".data (badgingLine2 smin) = true := by
    unfold startsWithL badgingLine2
    simp only [List.append_assoc]
    rw [isPrefixOf_append_of_le _ _ _ (by decide)]
    decide
  have d3 : startsWithL "targetSdkVersion:".data (badgingLine2 smin) = false := by
    unfold startsWithL badgingLine2
    simp only [List.append_assoc]
    exact isPrefixOf_append_false _ _ _ (by decide) (by decide)
  have hac : (afterColon (badgingLine2 smin)).filter (fun c => c ≠ chQuote) = smin := by
    unfold afterColon badgingLine2
    simp [List.dropWhile_cons, List.append_assoc, List.filter_append, filter_plain hs]
    exact plainTok_no_quote hs
  simp only [scanLine, hst2, d1, d2, d3, if_true, Bool.false_eq_true, if_false, hac,
    pyStrip_plain hs]

/-- Scanning a canonical `targetSdkVersion:` line assigns `target_sdk`. -/
theorem scanLine_badging3 (stgt : List Char) (ht : plainTok stgt = true) (b : Badging) :
    scanLine b (badgingLine3 stgt) = { b with target_sdk := stgt } := by
  have hst3 : pyStrip (badgingLine3 stgt) = badgingLine3 stgt := by
    apply pyStrip_eq_self
    · intro c hcq
      have h0 : (badgingLine3 stgt).head? = some 't' := by
        unfold badgingLine3
        simp only [List.append_assoc, List.head?_append]
        rfl
      rw [h0] at hcq
      injection hcq with hcq
      subst hcq
      decide
    · intro c hcq
      have h0 : (badgingLine3 stgt).getLast? = some chQuote := List.getLast?_concat _
      rw [h0] at hcq
      injection hcq with hcq
      subst hcq
      decide
  have d1 : startsWithL "package:".data (badgingLine3 stgt) = false := by
    unfold startsWithL badgingLine3
    simp only [List.append_assoc]
    exact isPrefixOf_append_false _ _ _ (by decide) (by decide)
  have d2 : startsWithL "sdkVersion:".data (badgingLine3 stgt) = false := by
    unfold startsWithL badgingLine3
    simp only [List.append_assoc]
    exact isPrefixOf_append_false _ _ _ (by decide) (by decide)
  have d3 : startsWithL "targetSdkVersion:".data (badgingLine3 stgt) = true := by
    unfold startsWithL badgingLine3
    simp only [List.append_assoc]
    rw [isPrefixOf_append_of_le _ _ _ (by decide)]
    decide
  have hac : (afterColon (badgingLine3 stgt)).filter (fun c => c ≠ chQuote) = stgt := by
    unfold afterColon badgingLine3
    simp [List.dropWhile_cons, List.append_assoc, List.filter_append, filter_plain ht]
    exact plainTok_no_quote ht
  simp only [scanLine, hst3, d1, d2, d3, if_true, Bool.false_eq_true, if_false, hac,
    pyStrip_plain ht]

/-- The canonical badging output splits into its three lines. -/
theorem splitLines_mkBadgingOut (name vc vn smin stgt : List Char)
    (hn : plainTok name = true) (hc : plainTok vc = true) (hv : plainTok vn = true)
    (hs : plainTok smin = true) (ht : plainTok stgt = true) :
    splitLines (mkBadgingOut name vc vn smin stgt) =
      [badgingLine1 name vc vn, badgingLine2 smin, badgingLine3 stgt] := by
  have hnl1 : ∀ c ∈ badgingLine1 name vc vn, c ≠ '\n' := by
    intro c hcm
    unfold badgingLine1 at hcm
    simp only [List.append_assoc, List.mem_append] at hcm
    rcases hcm with h | h | h | h | h | h | h | h | h | h | h | h <;>
      first
        | exact plainTok_no_nl hn _ h
        | exact plainTok_no_nl hc _ h
        | exact plainTok_no_nl hv _ h
        | exact (by decide : ∀ x ∈ ("package: name=".data : List Char), x ≠ '\n') _ h
        | exact (by decide : ∀ x ∈ ((" versionCode=".data : List Char)), x ≠ '\n') _ h
        | exact (by decide : ∀ x ∈ ((" versionName=".data : List Char)), x ≠ '\n') _ h
        | exact (by decide : ∀ x ∈ ([chQuote] : List Char), x ≠ '\n') _ h
  have hnl2 : ∀ c ∈ badgingLine2 smin, c ≠ '\n' := by
    intro c hcm
    unfold badgingLine2 at hcm
    simp only [List.append_assoc, List.mem_append] at hcm
    rcases hcm with h | h | h | h <;>
      first
        | exact plainTok_no_nl hs _ h
        | exact (by decide : ∀ x ∈ ("sdkVersion:".data : List Char), x ≠ '\n') _ h
        | exact (by decide : ∀ x ∈ ([chQuote] : List Char), x ≠ '\n') _ h
  have hnl3 : ∀ c ∈ badgingLine3 stgt, c ≠ '\n' := by
    intro c hcm
    unfold badgingLine3 at hcm
    simp only [List.append_assoc, List.mem_append] at hcm
    rcases hcm with h | h | h | h <;>
      first
        | exact plainTok_no_nl ht _ h
        | exact (by decide : ∀ x ∈ ("targetSdkVersion:".data : List Char), x ≠ '\n') _ h
        | exact (by decide : ∀ x ∈ ([chQuote] : List Char), x ≠ '\n') _ h
  unfold splitLines mkBadgingOut
  rw [splitLinesAux_mid _ hnl1, splitLinesAux_mid _ hnl2,
    splitLinesAux_last _ hnl3 [] (by unfold badgingLine3; simp)]
  simp

/-- A fold of `scanLine` over lines that trigger none of the three markers
leaves the accumulator unchanged. -/
theorem foldl_scanLine_no_trigger (ls : List (List Char))
    (h : ∀ line ∈ ls, startsWithL "package:".data (pyStrip line) = false ∧
      startsWithL "sdkVersion:".data (pyStrip line) = false ∧
      startsWithL "targetSdkVersion:".data (pyStrip line) = false) :
    ∀ b, ls.foldl scanLine b = b := by
  induction ls with
  | nil => intro b; rfl
  | cons l t ih =>
    intro b
    obtain ⟨h1, h2, h3⟩ := h l (by simp)
    simp only [List.foldl_cons]
    rw [show scanLine b l = b from by
      simp only [scanLine, h1, h2, h3, Bool.false_eq_true, if_false]]
    exact ih (fun x hx => h x (by simp [hx])) b

/-- C5: `apk_insight` extracts the `package:` line values of `name=`,
`versionCode=` and `versionName=` (after quote removal and whitespace
splitting), takes `sdkVersion:`/`targetSdkVersion:` values after the first
colon with quotes removed and whitespace stripped, reports `unknown` for any
field not found, and prints the missing-`aapt` notice when `aapt` produced no
output. -/
theorem C5_apk_insight_extraction (name vc vn smin stgt : List Char)
    (hn : plainTok name = true) (hc : plainTok vc = true) (hv : plainTok vn = true)
    (hs : plainTok smin = true) (ht : plainTok stgt = true) :
    parseBadging (mkBadgingOut name vc vn smin stgt) =
      { package_name := name, version_code := vc, version_name := vn,
        min_sdk := smin, target_sdk := stgt } ∧
    (∀ apk, apkReportEvents apk [] =
      [Event.msg "aapt not found or metadata unavailable. Install Android build-tools for richer APK insight.".data,
       Event.msg ("APK: ".data ++ apk),
       Event.msg "Package: unknown".data,
       Event.msg "Version code: unknown".data,
       Event.msg "Version name: unknown".data,
       Event.msg "minSdk: unknown".data,
       Event.msg "targetSdk: unknown".data]) ∧
    (∀ out : List Char,
      (∀ line ∈ splitLines out,
        startsWithL "package:".data (pyStrip line) = false ∧
        startsWithL "sdkVersion:".data (pyStrip line) = false ∧
        startsWithL "targetSdkVersion:".data (pyStrip line) = false) →
      parseBadging out =
        { package_name := [], version_code := [], version_name := [],
          min_sdk := [], target_sdk := [] }) := by
  refine ⟨?_, ?_, ?_⟩
  · unfold parseBadging
    rw [splitLines_mkBadgingOut name vc vn smin stgt hn hc hv hs ht]
    simp only [List.foldl_cons, List.foldl_nil, scanLine_badging1 name vc vn hn hc hv,
      scanLine_badging2 smin hs, scanLine_badging3 stgt ht]
  · intro apk
    rfl
  · intro out h
    unfold parseBadging
    exact foldl_scanLine_no_trigger (splitLines out) h _

/-- Witness for C5 at a concrete canonical `aapt` output. -/
theorem C5_apk_insight_extraction_witness :
    parseBadging (mkBadgingOut "com.example.app".data "42".data "1.0".data
        "21".data "33".data) =
      { package_name := "com.example.app".data, version_code := "42".data,
        version_name := "1.0".data, min_sdk := "21".data,
        target_sdk := "33".data } :=
  (C5_apk_insight_extraction "com.example.app".data "42".data "1.0".data "21".data
    "33".data (by decide) (by decide) (by decide) (by decide) (by decide)).1

/-- The actions collected by `run_plugins` are exactly the valid actions of
the processed files, in file order. -/
theorem collectPlugins_fst (sem : List Char → RegOutcome) :
    ∀ fs : List (List Char), (collectPlugins sem fs).1 =
      (fs.map (fun f => validActionsOf (sem f))).flatten := by
  intro fs
  induction fs with
  | nil => rfl
  | cons f t ih => simp [collectPlugins, ih]

/-- The messages printed by the collection loop of `run_plugins` are exactly
the per-file failure messages, in file order. -/
theorem collectPlugins_snd (sem : List Char → RegOutcome) :
    ∀ fs : List (List Char), (collectPlugins sem fs).2 =
      (fs.map (fun f => pluginMsgsOf f (sem f))).flatten := by
  intro fs
  induction fs with
  | nil => rfl
  | cons f t ih => simp [collectPlugins, ih]

/-- C6: `run_plugins` considers exactly the `.py` files not starting with
`_`, in sorted order; it collects only the returned action dicts with a
truthy name and a callable `run`; a plugin whose loading raises, or whose
registration raises, is reported and skipped without aborting the rest; with
no valid actions it reports that and offers nothing. -/
theorem C6_run_plugins (listing : List (List Char)) (sem : List Char → RegOutcome)
    (runErr : List Char → Option (List Char)) (script : List (List Char)) :
    List.Pairwise LexLeP (pluginFiles listing) ∧
    (pluginFiles listing).Perm (listing.filter eligiblePlugin) ∧
    (∀ f ∈ pluginFiles listing,
      endsWithL ".py".data f = true ∧ startsWithL "_".data f = false) ∧
    (collectPlugins sem (pluginFiles listing)).1 =
      ((pluginFiles listing).map (fun f => validActionsOf (sem f))).flatten ∧
    (∀ a ∈ (collectPlugins sem (pluginFiles listing)).1,
      a.runCallable = true ∧ a.name ≠ []) ∧
    (∀ f ∈ pluginFiles listing, ∀ e, sem f = .loadRaises e →
      Event.msg ("Failed loading plugin ".data ++ f ++ ": ".data ++ e) ∈
        (collectPlugins sem (pluginFiles listing)).2) ∧
    (∀ f ∈ pluginFiles listing, ∀ e, sem f = .regRaises e →
      Event.msg ("Failed registering actions in plugin ".data ++ f ++ ": ".data ++ e) ∈
        (collectPlugins sem (pluginFiles listing)).2) ∧
    ((collectPlugins sem (pluginFiles listing)).1 = [] → pluginFiles listing ≠ [] →
      runPlugins true listing sem runErr script =
        (collectPlugins sem (pluginFiles listing)).2 ++
          [Event.msg "No valid plugin actions found.".data]) := by
  refine ⟨?_, ?_, ?_, collectPlugins_fst sem _, ?_, ?_, ?_, ?_⟩
  · exact List.sorted_insertionSort _ _
  · exact List.perm_insertionSort _ _
  · intro f hf
    have hm : f ∈ listing.filter eligiblePlugin :=
      (List.perm_insertionSort _ _).mem_iff.mp hf
    have := List.of_mem_filter hm
    simp only [eligiblePlugin, Bool.and_eq_true, Bool.not_eq_true'] at this
    exact this
  · intro a ha
    rw [collectPlugins_fst] at ha
    obtain ⟨l, hl, hal⟩ := List.mem_flatten.mp ha
    obtain ⟨f, -, hfl⟩ := List.mem_map.mp hl
    subst hfl
    cases hsem : sem f with
    | returns acts =>
      rw [hsem] at hal
      unfold validActionsOf at hal
      have := List.of_mem_filter hal
      simp only [Bool.and_eq_true] at this
      exact ⟨this.1, by simpa using this.2⟩
    | loadRaises e => rw [hsem] at hal; simp [validActionsOf] at hal
    | loadsNone => rw [hsem] at hal; simp [validActionsOf] at hal
    | noRegister => rw [hsem] at hal; simp [validActionsOf] at hal
    | regRaises e => rw [hsem] at hal; simp [validActionsOf] at hal
  · intro f hf e hsem
    rw [collectPlugins_snd]
    refine List.mem_flatten.mpr ⟨pluginMsgsOf f (sem f), List.mem_map.mpr ⟨f, hf, rfl⟩, ?_⟩
    rw [hsem]
    simp [pluginMsgsOf]
  · intro f hf e hsem
    rw [collectPlugins_snd]
    refine List.mem_flatten.mpr ⟨pluginMsgsOf f (sem f), List.mem_map.mpr ⟨f, hf, rfl⟩, ?_⟩
    rw [hsem]
    simp [pluginMsgsOf]
  · intro hempty hne
    unfold runPlugins
    rw [if_neg (by simp), if_neg hne]
    simp only [hempty, if_pos rfl]
    simp

/-- Witness for C6: on a concrete listing, the plugin `b.py` whose loading
raises and the plugin `d.py` whose registration raises are both reported
among the collection messages. -/
theorem C6_run_plugins_witness :
    (Event.msg ("Failed loading plugin ".data ++ "b.py".data ++ ": ".data ++
      "boom".data) ∈ (collectPlugins c6sem (pluginFiles c6listing)).2) ∧
    (Event.msg ("Failed registering actions in plugin ".data ++ "d.py".data ++
      ": ".data ++ "bad".data) ∈ (collectPlugins c6sem (pluginFiles c6listing)).2) :=
  ⟨(C6_run_plugins c6listing c6sem (fun _ => none) []).2.2.2.2.2.1 "b.py".data
    (by decide) "boom".data (by decide),
   (C6_run_plugins c6listing c6sem (fun _ => none) []).2.2.2.2.2.2.1 "d.py".data
    (by decide) "bad".data (by decide)⟩

/-- A complete run of the capture loop: one iteration per clock-read pair
below `endAt`, chunks numbered consecutively from `c0`, a sleep exactly when
the second reading is still before `endAt`, and the report after the final
reading reaches `endAt`. -/
theorem schedLoop_run (redact : List Char → List Char) (logcat : Nat → List Char)
    (outDir : List Char) (interval : Int) (endAt : Int) (tf : Int)
    (htf : ¬ tf < endAt) :
    ∀ (ps : List (Int × Int)) (c0 : Nat), (∀ p ∈ ps, p.1 < endAt) →
      schedLoop redact logcat outDir interval endAt
          ((ps.map (fun p => [p.1, p.2])).flatten ++ [tf]) c0 =
        ((ps.enumFrom c0).map (fun q =>
          schedBlock redact logcat outDir q.1 ++
            (if q.2.2 < endAt then [Event.sleepFor interval] else []))).flatten ++
        [Event.msg ("Scheduled logs saved in: ".data ++ outDir)] := by
  intro ps
  induction ps with
  | nil =>
    intro c0 hps
    simp only [List.map_nil, List.flatten_nil, List.nil_append]
    rw [schedLoop.eq_2, if_neg htf]
    simp
  | cons p t ih =>
    intro c0 hps
    obtain ⟨t1, t2⟩ := p
    have h1 : t1 < endAt := hps (t1, t2) (by simp)
    simp only [List.map_cons, List.flatten_cons, List.cons_append, List.nil_append]
    rw [schedLoop.eq_3, if_pos h1, ih (c0 + 1) (fun q hq => hps q (by simp [hq]))]
    simp [List.enumFrom_cons, List.append_assoc]

/-- C2: `scheduled_log_capture` runs its loop until the clock reaches the
start reading plus the computed duration; each iteration, numbered from 1,
dumps the log, writes the (possibly redacted) chunk file, gzips it, removes
the plain file, clears the device log, and sleeps the interval only when the
end time has not yet been reached; afterwards it reports the output
directory. -/
theorem C2_scheduled_log_capture (redact : List Char → List Char)
    (logcat : Nat → List Char) (serial timestamp : List Char)
    (minutesIn intervalIn : List Char) (t0 tf : Int) (ps : List (Int × Int))
    (hps : ∀ p ∈ ps, p.1 < t0 + totalSecondsOf
      (if pyStrip minutesIn = [] then "5".data else pyStrip minutesIn))
    (htf : ¬ tf < t0 + totalSecondsOf
      (if pyStrip minutesIn = [] then "5".data else pyStrip minutesIn)) :
    scheduledLogCapture redact logcat serial timestamp
        (t0 :: ((ps.map (fun p => [p.1, p.2])).flatten ++ [tf])) minutesIn intervalIn =
      Event.makeDirs ("scheduled_logs_".data ++ serial ++ "_".data ++ timestamp) ::
      (((ps.enumFrom 1).map (fun q =>
        schedBlock redact logcat
          ("scheduled_logs_".data ++ serial ++ "_".data ++ timestamp) q.1 ++
          (if q.2.2 < t0 + totalSecondsOf
              (if pyStrip minutesIn = [] then "5".data else pyStrip minutesIn) then
            [Event.sleepFor (intervalOf
              (if pyStrip intervalIn = [] then "30".data else pyStrip intervalIn))]
          else []))).flatten ++
        [Event.msg ("Scheduled logs saved in: ".data ++
          ("scheduled_logs_".data ++ serial ++ "_".data ++ timestamp))]) ∧
    (∀ c : Nat, schedBlock redact logcat
        ("scheduled_logs_".data ++ serial ++ "_".data ++ timestamp) c =
      [Event.adbRun ["logcat".data, "-d".data],
       Event.fileWrite ("scheduled_logs_".data ++ serial ++ "_".data ++ timestamp ++
         "/".data ++ "logcat_chunk_".data ++ pad3 c ++ ".txt".data)
         (redact (logcat c)),
       Event.fileGzip ("scheduled_logs_".data ++ serial ++ "_".data ++ timestamp ++
         "/".data ++ "logcat_chunk_".data ++ pad3 c ++ ".txt".data)
         ("scheduled_logs_".data ++ serial ++ "_".data ++ timestamp ++
           "/".data ++ "logcat_chunk_".data ++ pad3 c ++ ".txt".data ++ ".gz".data),
       Event.fileRemove ("scheduled_logs_".data ++ serial ++ "_".data ++ timestamp ++
         "/".data ++ "logcat_chunk_".data ++ pad3 c ++ ".txt".data),
       Event.adbRun ["logcat".data, "-c".data]]) := by
  constructor
  · unfold scheduledLogCapture
    dsimp only
    rw [schedLoop_run redact logcat _ _ _ tf htf ps 1 hps]
  · intro c
    simp [schedBlock, chunkPathOf, List.append_assoc]

/-- Witness for C2: one minute requested at clock 0, two full iterations
with a sleep after the first only. -/
theorem C2_scheduled_log_capture_witness :
    scheduledLogCapture id (fun _ => "LOG".data) "S".data "T".data
        (0 :: (([((0 : Int), (10 : Int)), (40, 70)].map
          (fun p => [p.1, p.2])).flatten ++ [60]))
        "1".data "".data =
      Event.makeDirs ("scheduled_logs_".data ++ "S".data ++ "_".data ++ "T".data) ::
      ((([((0 : Int), (10 : Int)), (40, 70)].enumFrom 1).map (fun q =>
        schedBlock id (fun _ => "LOG".data)
          ("scheduled_logs_".data ++ "S".data ++ "_".data ++ "T".data) q.1 ++
          (if q.2.2 < 0 + totalSecondsOf
              (if pyStrip "1".data = [] then "5".data else pyStrip "1".data) then
            [Event.sleepFor (intervalOf
              (if pyStrip "".data = [] then "30".data else pyStrip "".data))]
          else []))).flatten ++
        [Event.msg ("Scheduled logs saved in: ".data ++
          ("scheduled_logs_".data ++ "S".data ++ "_".data ++ "T".data))]) :=
  (C2_scheduled_log_capture id (fun _ => "LOG".data) "S".data "T".data
    "1".data "".data 0 60 [(0, 10), (40, 70)] (by decide) (by decide)).1

/-- Skipping whitespace ignores a leading newline. -/
theorem skipWs_cons_nl (l : List Char) : skipWs ('\n' :: l) = skipWs l := by
  simp [skipWs, List.dropWhile_cons, isJsonWs]

/-- Skipping whitespace ignores leading spaces. -/
theorem skipWs_replicate_space (m : Nat) (l : List Char) :
    skipWs (List.replicate m ' ' ++ l) = skipWs l := by
  induction m with
  | zero => rfl
  | succ k ih => simpa [List.replicate_succ, skipWs, List.dropWhile_cons, isJsonWs] using ih

/-- Skipping whitespace ignores indentation. -/
theorem skipWs_indent (k : Nat) (l : List Char) : skipWs (jIndent k ++ l) = skipWs l :=
  skipWs_replicate_space (2 * k) l

/-- Skipping whitespace stops at a non-whitespace character. -/
theorem skipWs_not_ws {c : Char} (h : isJsonWs c = false) (l : List Char) :
    skipWs (c :: l) = c :: l := by
  simp [skipWs, List.dropWhile_cons, h]

/-- `parseVal` only looks at its input through `skipWs`. -/
theorem parseVal_congr_ws {l1 l2 : List Char} (h : skipWs l1 = skipWs l2) (n : Nat) :
    parseVal n l1 = parseVal n l2 := by
  cases n with
  | zero => rfl
  | succ n => rw [parseVal.eq_2, parseVal.eq_2, h]

/-- Hexadecimal digits round-trip. -/
theorem hexDigRT : ∀ d : Nat, d < 16 → hexVal? (hexDig d) = some d := by decide

/-- Four-digit hexadecimal escapes round-trip. -/
theorem hex4Val_hex4 (n : Nat) (h : n < 65536) :
    hex4Val (hexDig (n / 4096 % 16)) (hexDig (n / 256 % 16)) (hexDig (n / 16 % 16))
      (hexDig (n % 16)) = some n := by
  unfold hex4Val
  rw [hexDigRT _ (Nat.mod_lt _ (by norm_num)), hexDigRT _ (Nat.mod_lt _ (by norm_num)),
    hexDigRT _ (Nat.mod_lt _ (by norm_num)), hexDigRT _ (Nat.mod_lt _ (by norm_num))]
  have he : n / 4096 % 16 * 4096 + n / 256 % 16 * 256 + n / 16 % 16 * 16 + n % 16 = n := by
    omega
  simp only []
  rw [he]

/-- Every character code is below the surrogate range or above it and below
the Unicode bound. -/
theorem char_valid_nat (c : Char) :
    c.toNat < 0xD800 ∨ (0xE000 ≤ c.toNat ∧ c.toNat < 0x110000) := by
  have := c.valid
  unfold UInt32.isValidChar Nat.isValidChar at this
  exact this

/-- Parsing undoes the escape of a single character. -/
theorem escChar_parse (c : Char) (tail : List Char) :
    parseStrBody (escChar c ++ tail) =
      (parseStrBody tail).map (fun p => (c :: p.1, p.2)) := by
  have hval := char_valid_nat c
  unfold escChar
  by_cases h1 : c = '"'
  · rw [if_pos h1]
    subst h1
    rw [List.cons_append, List.cons_append, List.nil_append, parseStrBody.eq_2]
    simp [parseEscape, escSimple]
  rw [if_neg h1]
  by_cases h2 : c = '\\'
  · rw [if_pos h2]
    subst h2
    rw [List.cons_append, List.cons_append, List.nil_append, parseStrBody.eq_2]
    simp [parseEscape, escSimple]
  rw [if_neg h2]
  by_cases h3 : c = '\n'
  · rw [if_pos h3]
    subst h3
    rw [List.cons_append, List.cons_append, List.nil_append, parseStrBody.eq_2]
    simp [parseEscape, escSimple]
  rw [if_neg h3]
  by_cases h4 : c = '\r'
  · rw [if_pos h4]
    subst h4
    rw [List.cons_append, List.cons_append, List.nil_append, parseStrBody.eq_2]
    simp [parseEscape, escSimple]
  rw [if_neg h4]
  by_cases h5 : c = '\t'
  · rw [if_pos h5]
    subst h5
    rw [List.cons_append, List.cons_append, List.nil_append, parseStrBody.eq_2]
    simp [parseEscape, escSimple]
  rw [if_neg h5]
  by_cases h6 : c = Char.ofNat 8
  · rw [if_pos h6]
    subst h6
    rw [List.cons_append, List.cons_append, List.nil_append, parseStrBody.eq_2]
    simp [parseEscape, escSimple]
  rw [if_neg h6]
  by_cases h7 : c = Char.ofNat 12
  · rw [if_pos h7]
    subst h7
    rw [List.cons_append, List.cons_append, List.nil_append, parseStrBody.eq_2]
    simp [parseEscape, escSimple]
  rw [if_neg h7]
  by_cases h8 : c.toNat < 32
  · rw [if_pos h8]
    rw [show ('\\' :: 'u' :: hex4 c.toNat) ++ tail =
      '\\' :: 'u' :: hexDig (c.toNat / 4096 % 16) :: hexDig (c.toNat / 256 % 16) ::
        hexDig (c.toNat / 16 % 16) :: hexDig (c.toNat % 16) :: tail from by simp [hex4]]
    rw [parseStrBody.eq_2,
      if_neg (by decide : ¬ ('\\' : Char) = '"'), if_pos (rfl : ('\\' : Char) = '\\'),
      parseEscape.eq_2, if_pos (rfl : ('u' : Char) = 'u'), parseHexEsc.eq_1,
      hex4Val_hex4 _ (by omega)]
    simp only []
    rw [if_pos (Or.inl (by omega : c.toNat < 0xD800)), Char.ofNat_toNat]
  rw [if_neg h8]
  by_cases h9 : c.toNat < 127
  · rw [if_pos h9]
    rw [List.cons_append, List.nil_append, parseStrBody.eq_2, if_neg h1, if_neg h2,
      if_neg (by omega : ¬ c.toNat < 32)]
  rw [if_neg h9]
  by_cases h10 : c.toNat < 65536
  · rw [if_pos h10]
    have hsur : c.toNat < 0xD800 ∨ 0xE000 ≤ c.toNat := by
      rcases hval with h | ⟨h, -⟩
      · exact Or.inl h
      · exact Or.inr h
    rw [show ('\\' :: 'u' :: hex4 c.toNat) ++ tail =
      '\\' :: 'u' :: hexDig (c.toNat / 4096 % 16) :: hexDig (c.toNat / 256 % 16) ::
        hexDig (c.toNat / 16 % 16) :: hexDig (c.toNat % 16) :: tail from by simp [hex4]]
    rw [parseStrBody.eq_2,
      if_neg (by decide : ¬ ('\\' : Char) = '"'), if_pos (rfl : ('\\' : Char) = '\\'),
      parseEscape.eq_2, if_pos (rfl : ('u' : Char) = 'u'), parseHexEsc.eq_1,
      hex4Val_hex4 _ (by omega)]
    simp only []
    rw [if_pos hsur, Char.ofNat_toNat]
  rw [if_neg h10]
  have hup : c.toNat < 0x110000 := by
    rcases hval with h | ⟨-, h⟩
    · omega
    · exact h
  have hlow : 0x10000 ≤ c.toNat := by omega
  rw [show ('\\' :: 'u' :: hex4 (0xD800 + (c.toNat - 0x10000) / 0x400) ++
      ('\\' :: 'u' :: hex4 (0xDC00 + (c.toNat - 0x10000) % 0x400))) ++ tail =
    '\\' :: 'u' ::
      hexDig ((0xD800 + (c.toNat - 0x10000) / 0x400) / 4096 % 16) ::
      hexDig ((0xD800 + (c.toNat - 0x10000) / 0x400) / 256 % 16) ::
      hexDig ((0xD800 + (c.toNat - 0x10000) / 0x400) / 16 % 16) ::
      hexDig ((0xD800 + (c.toNat - 0x10000) / 0x400) % 16) ::
      '\\' :: 'u' ::
      hexDig ((0xDC00 + (c.toNat - 0x10000) % 0x400) / 4096 % 16) ::
      hexDig ((0xDC00 + (c.toNat - 0x10000) % 0x400) / 256 % 16) ::
      hexDig ((0xDC00 + (c.toNat - 0x10000) % 0x400) / 16 % 16) ::
      hexDig ((0xDC00 + (c.toNat - 0x10000) % 0x400) % 16) :: tail from by simp [hex4]]
  rw [parseStrBody.eq_2,
    if_neg (by decide : ¬ ('\\' : Char) = '"'), if_pos (rfl : ('\\' : Char) = '\\'),
    parseEscape.eq_2, if_pos (rfl : ('u' : Char) = 'u'), parseHexEsc.eq_1,
    hex4Val_hex4 _ (by omega)]
  simp only []
  rw [if_neg (by omega), if_pos (by omega : 0xD800 + (c.toNat - 0x10000) / 0x400 < 0xDC00),
    parseLowSur.eq_1, if_pos ⟨rfl, rfl⟩, hex4Val_hex4 _ (by omega)]
  simp only []
  rw [if_pos (by constructor <;> omega)]
  have hcomb : 0x10000 + (0xD800 + (c.toNat - 0x10000) / 0x400 - 0xD800) * 0x400 +
      (0xDC00 + (c.toNat - 0x10000) % 0x400 - 0xDC00) = c.toNat := by omega
  rw [hcomb, Char.ofNat_toNat]

/-- Parsing undoes the escape of a whole string body. -/
theorem escStr_parse (s : List Char) (tail : List Char) :
    parseStrBody (escStr s ++ '"' :: tail) = some (s, tail) := by
  induction s with
  | nil =>
    simp only [escStr, List.map_nil, List.flatten_nil, List.nil_append]
    rw [parseStrBody.eq_2]
    simp
  | cons c t ih =>
    have hsplit : escStr (c :: t) = escChar c ++ escStr t := by
      simp [escStr]
    rw [hsplit, List.append_assoc, escChar_parse, ih]
    rfl

/-- Digit characters test as digits. -/
theorem digitChar_digit : ∀ d : Nat, d < 10 → isDigitCh (digitChar d) = true := by decide

/-- Code of a digit character. -/
theorem digitChar_toNat : ∀ d : Nat, d < 10 → (digitChar d).toNat = 48 + d := by decide

/-- Every character of a decimal form is a digit. -/
theorem natDigits_all_digit : ∀ n : Nat, ∀ c ∈ natDigits n, isDigitCh c = true := by
  intro n
  induction n using Nat.strong_induction_on with
  | _ n ih =>
    rw [natDigits]
    by_cases h : n < 10
    · rw [if_pos h]
      intro c hc
      simp at hc
      subst hc
      exact digitChar_digit n h
    · rw [if_neg h]
      intro c hc
      rcases List.mem_append.1 hc with h1 | h2
      · exact ih (n / 10) (Nat.div_lt_self (by omega) (by omega)) c h1
      · simp at h2
        subst h2
        exact digitChar_digit _ (Nat.mod_lt _ (by omega))

/-- A decimal form is never empty. -/
theorem natDigits_ne_nil (n : Nat) : natDigits n ≠ [] := by
  rw [natDigits]
  by_cases h : n < 10
  · rw [if_pos h]
    simp
  · rw [if_neg h]
    simp

/-- Appending one digit multiplies the value by ten. -/
theorem natValOf_append (ds : List Char) (c : Char) :
    natValOf (ds ++ [c]) = natValOf ds * 10 + (c.toNat - 48) := by
  simp [natValOf, List.foldl_append]

/-- The value of the decimal form is the number itself. -/
theorem natValOf_natDigits : ∀ n : Nat, natValOf (natDigits n) = n := by
  intro n
  induction n using Nat.strong_induction_on with
  | _ n ih =>
    rw [natDigits]
    by_cases h : n < 10
    · rw [if_pos h]
      simp [natValOf]
      rw [digitChar_toNat n h]
      omega
    · rw [if_neg h, natValOf_append, ih (n / 10) (Nat.div_lt_self (by omega) (by omega)),
        digitChar_toNat _ (Nat.mod_lt _ (by omega))]
      omega

/-- Only zero has a decimal form starting with the zero digit. -/
theorem natDigits_head_zero : ∀ n : Nat, (natDigits n).head? = some '0' → n = 0 := by
  intro n
  induction n using Nat.strong_induction_on with
  | _ n ih =>
    rw [natDigits]
    by_cases h : n < 10
    · rw [if_pos h]
      intro hh
      simp at hh
      have h2 := congrArg Char.toNat hh
      rw [digitChar_toNat n h] at h2
      have h3 : ('0' : Char).toNat = 48 := rfl
      omega
    · rw [if_neg h]
      intro hh
      rw [List.head?_append] at hh
      cases hcd : (natDigits (n / 10)).head? with
      | none =>
        exact absurd (List.head?_eq_none_iff.1 hcd) (natDigits_ne_nil _)
      | some d =>
        rw [hcd] at hh
        simp at hh
        have := ih (n / 10) (Nat.div_lt_self (by omega) (by omega)) (by rw [hcd, hh])
        omega

/-- Taking then dropping digits splits a digit run from a non-digit tail. -/
theorem span_digits (ds : List Char) (hd : ∀ c ∈ ds, isDigitCh c = true) :
    ∀ tail : List Char, (∀ c, tail.head? = some c → isDigitCh c = false) →
      (ds ++ tail).takeWhile isDigitCh = ds ∧ (ds ++ tail).dropWhile isDigitCh = tail := by
  induction ds with
  | nil =>
    intro tail ht
    cases tail with
    | nil => exact ⟨rfl, rfl⟩
    | cons c r =>
      have hc := ht c rfl
      simp [List.takeWhile_cons, List.dropWhile_cons, hc]
  | cons d rest ih =>
    intro tail ht
    have hdd : isDigitCh d = true := hd d (by simp)
    have hrest := ih (fun c hc => hd c (by simp [hc])) tail ht
    simp [List.takeWhile_cons, List.dropWhile_cons, hdd, hrest.1, hrest.2]

/-- Facts about the character allowed after a serialized number. -/
theorem numOkB_facts {tail : List Char} (ht : numOkB tail = true) :
    ∀ c, tail.head? = some c →
      isDigitCh c = false ∧ ¬c = '.' ∧ ¬c = 'e' ∧ ¬c = 'E' := by
  intro c hc
  unfold numOkB at ht
  rw [hc] at ht
  simp at ht
  exact ⟨ht.1.1.1, ht.1.1.2, ht.1.2, ht.2⟩

/-- An unsigned decimal form parses back to its value. -/
theorem parseNatNum_natDigits (m : Nat) (tail : List Char) (ht : numOkB tail = true) :
    parseNatNum (natDigits m ++ tail) = some (m, tail) := by
  have hdig : ∀ c, tail.head? = some c → isDigitCh c = false :=
    fun c hc => (numOkB_facts ht c hc).1
  obtain ⟨hts, htd⟩ := span_digits (natDigits m) (natDigits_all_digit m) tail hdig
  simp only [parseNatNum, hts, htd]
  rw [if_neg (natDigits_ne_nil m)]
  have hlead : ¬(1 < (natDigits m).length ∧ (natDigits m).head? = some '0') := by
    by_cases m0 : m = 0
    · subst m0
      have h0 : natDigits 0 = ['0'] := by
        rw [natDigits]
        norm_num
        rfl
      rw [h0]
      simp
    · exact fun hcon => m0 (natDigits_head_zero m hcon.2)
  rw [if_neg hlead]
  cases tail with
  | nil => rw [natValOf_natDigits]
  | cons c r =>
    obtain ⟨_, h2, h3, h4⟩ := numOkB_facts ht c rfl
    simp only []
    rw [if_neg (by tauto), natValOf_natDigits]

/-- A serialized integer parses back to its value. -/
theorem parseNumber_intChars (n : Int) (tail : List Char) (ht : numOkB tail = true) :
    parseNumber (intChars n ++ tail) = some (Json.jint n, tail) := by
  unfold intChars
  by_cases hn : n < 0
  · rw [if_pos hn, List.cons_append]
    simp only [parseNumber]
    rw [if_pos trivial, parseNatNum_natDigits _ _ ht]
    have habs : ((n.natAbs : Int)) = -n := by omega
    simp [habs]
  · rw [if_neg hn]
    cases hnd : natDigits n.natAbs with
    | nil => exact absurd hnd (natDigits_ne_nil _)
    | cons d ds =>
      simp only [List.cons_append, parseNumber]
      have hdd : isDigitCh d = true := natDigits_all_digit _ d (by rw [hnd]; simp)
      have hdm : ¬d = '-' := by
        intro he
        subst he
        exact absurd hdd (by decide)
      rw [if_neg hdm, ← List.cons_append, ← hnd, parseNatNum_natDigits _ _ ht]
      have habs : ((n.natAbs : Int)) = n := by omega
      simp [habs]

/-- A digit character is none of the value-start markers, no whitespace, and
no closing bracket. -/
theorem digit_not_markers (d : Char) (h : isDigitCh d = true) :
    isJsonWs d = false ∧ ¬d = '"' ∧ ¬d = '[' ∧ ¬d = chLB ∧ ¬d = 'n' ∧ ¬d = 't' ∧
      ¬d = 'f' ∧ ¬d = ']' := by
  have h48 : 48 ≤ d.toNat ∧ d.toNat ≤ 57 := by simpa [isDigitCh] using h
  refine ⟨?_, ?_, ?_, ?_, ?_, ?_, ?_, ?_⟩
  · simp only [isJsonWs, Bool.or_eq_false_iff, decide_eq_false_iff_not]
    refine ⟨⟨⟨fun he => ?_, fun he => ?_⟩, fun he => ?_⟩, fun he => ?_⟩ <;>
      (subst he; exact absurd h48 (by decide))
  all_goals (intro he; subst he; exact absurd h48 (by decide))

/-- The minus sign is none of the value-start markers, no whitespace, and no
closing bracket. -/
theorem minus_not_markers :
    isJsonWs '-' = false ∧ ¬('-' : Char) = '"' ∧ ¬('-' : Char) = '[' ∧
      ¬('-' : Char) = chLB ∧ ¬('-' : Char) = 'n' ∧ ¬('-' : Char) = 't' ∧
      ¬('-' : Char) = 'f' ∧ ¬('-' : Char) = ']' := by decide

/-- The serialized form of a value starts with a character that is neither
whitespace nor a closing bracket. -/
theorem dumpVal_head (v : Json) (lvl : Nat) :
    ∃ c r, dumpVal v lvl = c :: r ∧ isJsonWs c = false ∧ ¬c = ']' := by
  cases v with
  | jnull => exact ⟨'n', _, rfl, by decide, by decide⟩
  | jbool b =>
    cases b with
    | true => exact ⟨'t', _, rfl, by decide, by decide⟩
    | false => exact ⟨'f', _, rfl, by decide, by decide⟩
  | jint n =>
    have hform : dumpVal (Json.jint n) lvl = intChars n := rfl
    rw [hform]
    unfold intChars
    by_cases hn : n < 0
    · rw [if_pos hn]
      exact ⟨'-', _, rfl, by decide, by decide⟩
    · rw [if_neg hn]
      cases hnd : natDigits n.natAbs with
      | nil => exact absurd hnd (natDigits_ne_nil _)
      | cons d ds =>
        have hdd : isDigitCh d = true := natDigits_all_digit _ d (by rw [hnd]; simp)
        obtain ⟨hw, _, _, _, _, _, _, hb⟩ := digit_not_markers d hdd
        exact ⟨d, ds, rfl, hw, hb⟩
  | jstr s => exact ⟨'"', _, rfl, by decide, by decide⟩
  | jarr xs =>
    cases xs with
    | nil => exact ⟨'[', _, rfl, by decide, by decide⟩
    | cons x t => exact ⟨'[', _, rfl, by decide, by decide⟩
  | jobj fs =>
    cases fs with
    | nil => exact ⟨chLB, _, rfl, by decide, by decide⟩
    | cons f t => exact ⟨chLB, _, rfl, by decide, by decide⟩

/-- Whitespace skipping stops right at a serialized value. -/
theorem skipWs_dump (v : Json) (lvl : Nat) (x : List Char) :
    skipWs (dumpVal v lvl ++ x) = dumpVal v lvl ++ x := by
  obtain ⟨c, r, he, hw, _⟩ := dumpVal_head v lvl
  rw [he, List.cons_append, skipWs_not_ws hw]

/-- Serialized items, or a closing line, start with a comma or a newline, so
they may follow a serialized integer. -/
theorem numOkB_items (xs : List Json) (lvl : Nat) (r : List Char) :
    numOkB (dumpItems xs lvl ++ '\n' :: r) = true := by
  cases xs with
  | nil => rfl
  | cons x t => rfl

/-- Serialized fields, or a closing line, start with a comma or a newline, so
they may follow a serialized integer. -/
theorem numOkB_fields (fs : List (List Char × Json)) (lvl : Nat) (r : List Char) :
    numOkB (dumpFields fs lvl ++ '\n' :: r) = true := by
  cases fs with
  | nil => rfl
  | cons f t => rfl

/-- Updating a dictionary with a fresh key appends the binding. -/
theorem dictUpd_fresh (acc : List (List Char × Json)) (k : List Char) (v : Json)
    (h : ∀ q ∈ acc, ¬q.1 = k) : dictUpd acc k v = acc ++ [(k, v)] := by
  unfold dictUpd
  rw [if_neg]
  simp only [List.any_eq_true, not_exists, not_and, Bool.not_eq_true]
  intro q hq
  simpa using h q hq

/-- Folding fresh bindings over a dictionary appends them all. -/
theorem foldl_dictUpd (l : List (List Char × Json)) :
    ∀ acc : List (List Char × Json), (∀ p ∈ l, ∀ q ∈ acc, ¬q.1 = p.1) →
      distinctKeys (l.map Prod.fst) = true →
      l.foldl (fun acc p => dictUpd acc p.1 p.2) acc = acc ++ l := by
  induction l with
  | nil => intro acc _ _; simp
  | cons p t ih =>
    intro acc hfresh hdist
    simp only [List.map_cons, distinctKeys, Bool.and_eq_true, Bool.not_eq_true'] at hdist
    obtain ⟨hd1, hd2⟩ := hdist
    have hnotmem : ¬p.1 ∈ t.map Prod.fst := by
      generalize t.map Prod.fst = s at hd1 ⊢
      simpa using hd1
    simp only [List.foldl_cons]
    rw [dictUpd_fresh acc p.1 p.2 (fun q hq => hfresh p (by simp) q hq)]
    rw [ih (acc ++ [(p.1, p.2)]) ?_ hd2]
    · simp
    · intro p2 hp2 q hq
      rcases List.mem_append.1 hq with hq1 | hq2
      · exact hfresh p2 (by simp [hp2]) q hq1
      · simp at hq2
        subst hq2
        intro he
        exact hnotmem (he ▸ List.mem_map_of_mem Prod.fst hp2)

/-- Deduplication is the identity on a field list with distinct keys. -/
theorem dedupKeys_id (l : List (List Char × Json))
    (h : distinctKeys (l.map Prod.fst) = true) : dedupKeys l = l := by
  unfold dedupKeys
  rw [foldl_dictUpd l [] (by simp) h]
  simp

/-- Skipping whitespace ignores a leading space. -/
theorem skipWs_cons_space (l : List Char) : skipWs (' ' :: l) = skipWs l := by
  simp [skipWs, List.dropWhile_cons, isJsonWs]

/-- Normal form of a serialized non-empty array followed by a tail. -/
theorem dump_arr_shape (x : Json) (xs : List Json) (lvl : Nat) (tail : List Char) :
    dumpVal (Json.jarr (x :: xs)) lvl ++ tail =
      '[' :: '\n' :: (jIndent (lvl + 1) ++ (dumpVal x (lvl + 1) ++
        (dumpItems xs (lvl + 1) ++ '\n' :: (jIndent lvl ++ (']' :: tail))))) := by
  simp [dumpVal, List.append_assoc]

/-- Normal form of a serialized non-empty object followed by a tail. -/
theorem dump_obj_shape (f : List Char × Json) (fs : List (List Char × Json))
    (lvl : Nat) (tail : List Char) :
    dumpVal (Json.jobj (f :: fs)) lvl ++ tail =
      chLB :: '\n' :: (jIndent (lvl + 1) ++ (dumpField f (lvl + 1) ++
        (dumpFields fs (lvl + 1) ++ '\n' :: (jIndent lvl ++ (chRB :: tail))))) := by
  simp [dumpVal, List.append_assoc]

/-- Normal form of a serialized field followed by a tail. -/
theorem dump_field_shape (k : List Char) (v : Json) (lvl : Nat) (tail : List Char) :
    dumpField (k, v) lvl ++ tail =
      '"' :: (escStr k ++ '"' :: ':' :: ' ' :: (dumpVal v lvl ++ tail)) := by
  simp [dumpField, dumpStr, List.append_assoc]

/-- Normal form of serialized remaining items followed by a tail. -/
theorem dump_items_shape (x : Json) (xs : List Json) (lvl : Nat) (tail : List Char) :
    dumpItems (x :: xs) lvl ++ tail =
      ',' :: '\n' :: (jIndent lvl ++ (dumpVal x lvl ++ (dumpItems xs lvl ++ tail))) := by
  simp [dumpItems, List.append_assoc]

/-- Normal form of serialized remaining fields followed by a tail. -/
theorem dump_fields_shape (f : List Char × Json) (fs : List (List Char × Json))
    (lvl : Nat) (tail : List Char) :
    dumpFields (f :: fs) lvl ++ tail =
      ',' :: '\n' :: (jIndent lvl ++ (dumpField f lvl ++ (dumpFields fs lvl ++ tail))) := by
  simp [dumpFields, List.append_assoc]

/-- Every value needs at least one unit of fuel. -/
theorem jsize_pos : ∀ v : Json, 1 ≤ jsize v := by
  intro v
  cases v with
  | jarr xs => cases xs <;> simp [jsize] <;> omega
  | jobj fs => cases fs <;> simp [jsize] <;> omega
  | jnull => simp [jsize]
  | jbool b => simp [jsize]
  | jint n => simp [jsize]
  | jstr s => simp [jsize]

/-- A serialized integer is never empty. -/
theorem intChars_ne_nil (k : Int) : intChars k ≠ [] := by
  unfold intChars
  by_cases hk : k < 0
  · rw [if_pos hk]
    simp
  · rw [if_neg hk]
    exact natDigits_ne_nil _

/-- A serialized integer starts with a minus sign or a digit. -/
theorem intChars_head (k : Int) :
    ∃ c cs, intChars k = c :: cs ∧ (c = '-' ∨ isDigitCh c = true) := by
  unfold intChars
  by_cases hk : k < 0
  · rw [if_pos hk]
    exact ⟨'-', _, rfl, Or.inl rfl⟩
  · rw [if_neg hk]
    cases hnd : natDigits k.natAbs with
    | nil => exact absurd hnd (natDigits_ne_nil _)
    | cons d ds =>
      exact ⟨d, ds, rfl, Or.inr (natDigits_all_digit _ d (by rw [hnd]; simp))⟩

/-- Parsing the serialized null literal. -/
theorem parseVal_lit_null (m : Nat) (tail : List Char) :
    parseVal (m + 1) ('n' :: 'u' :: 'l' :: 'l' :: tail) = some (Json.jnull, tail) := by
  rw [parseVal.eq_2, skipWs_not_ws (by decide)]
  simp only []
  rw [if_neg (by decide), if_neg (by decide), if_neg (by decide), if_pos trivial]
  unfold takeLit
  rw [show ('u' :: 'l' :: 'l' :: tail) = "ull".data ++ tail from rfl,
    isPrefixOf_self_append, if_pos rfl, List.drop_left]
  rfl

/-- Parsing the serialized true literal. -/
theorem parseVal_lit_true (m : Nat) (tail : List Char) :
    parseVal (m + 1) ('t' :: 'r' :: 'u' :: 'e' :: tail) = some (Json.jbool true, tail) := by
  rw [parseVal.eq_2, skipWs_not_ws (by decide)]
  simp only []
  rw [if_neg (by decide), if_neg (by decide), if_neg (by decide), if_neg (by decide),
    if_pos trivial]
  unfold takeLit
  rw [show ('r' :: 'u' :: 'e' :: tail) = "rue".data ++ tail from rfl,
    isPrefixOf_self_append, if_pos rfl, List.drop_left]
  rfl

/-- Parsing the serialized false literal. -/
theorem parseVal_lit_false (m : Nat) (tail : List Char) :
    parseVal (m + 1) ('f' :: 'a' :: 'l' :: 's' :: 'e' :: tail) =
      some (Json.jbool false, tail) := by
  rw [parseVal.eq_2, skipWs_not_ws (by decide)]
  simp only []
  rw [if_neg (by decide), if_neg (by decide), if_neg (by decide), if_neg (by decide),
    if_neg (by decide), if_pos trivial]
  unfold takeLit
  rw [show ('a' :: 'l' :: 's' :: 'e' :: tail) = "alse".data ++ tail from rfl,
    isPrefixOf_self_append, if_pos rfl, List.drop_left]
  rfl

/-- Binding a present optional value applies the continuation. -/
theorem opt_bind_some {α β : Type} (a : α) (f : α → Option β) : (some a).bind f = f a := rfl

set_option maxHeartbeats 1000000 in
set_option synthInstance.maxHeartbeats 400000 in
/-- Serialization followed by parsing is the identity: with enough fuel,
`parseVal` maps the serialized form of any well-formed value, followed by any
tail a number cannot absorb, back to the value and the tail; similarly for
the item and field loops. -/
theorem parse_dump : ∀ n : Nat,
    (∀ v lvl tail, jwf v = true → jsize v ≤ n → numOkB tail = true →
      parseVal n (dumpVal v lvl ++ tail) = some (v, tail)) ∧
    (∀ xs lvl tail, jwfItems xs = true → itemsNeed xs ≤ n →
      parseArrItems n (dumpItems xs (lvl + 1) ++ '\n' :: (jIndent lvl ++ (']' :: tail))) =
        some (xs, tail)) ∧
    (∀ fs lvl tail, jwfFields fs = true → fieldsNeed fs ≤ n →
      parseObjItems n (dumpFields fs (lvl + 1) ++ '\n' :: (jIndent lvl ++ (chRB :: tail))) =
        some (fs, tail)) := by
  intro n
  induction n using Nat.strong_induction_on with
  | _ n ih =>
    refine ⟨?_, ?_, ?_⟩
    · intro v lvl tail hwf hsz hok
      cases n with
      | zero => exact absurd (le_trans (jsize_pos v) hsz) (by omega)
      | succ m =>
        cases v with
        | jnull =>
          rw [show dumpVal Json.jnull lvl ++ tail = 'n' :: 'u' :: 'l' :: 'l' :: tail from rfl]
          exact parseVal_lit_null m tail
        | jbool b =>
          cases b with
          | true =>
            rw [show dumpVal (Json.jbool true) lvl ++ tail =
              't' :: 'r' :: 'u' :: 'e' :: tail from rfl]
            exact parseVal_lit_true m tail
          | false =>
            rw [show dumpVal (Json.jbool false) lvl ++ tail =
              'f' :: 'a' :: 'l' :: 's' :: 'e' :: tail from rfl]
            exact parseVal_lit_false m tail
        | jint k =>
          obtain ⟨c, cs, hic, hcd⟩ := intChars_head k
          have hfacts : isJsonWs c = false ∧ ¬c = '"' ∧ ¬c = '[' ∧ ¬c = chLB ∧ ¬c = 'n' ∧
              ¬c = 't' ∧ ¬c = 'f' ∧ ¬c = ']' := by
            rcases hcd with hcm | hcd
            · subst hcm
              exact minus_not_markers
            · exact digit_not_markers c hcd
          obtain ⟨hw, h1, h2, h3, h4, h5, h6, _⟩ := hfacts
          rw [show dumpVal (Json.jint k) lvl = intChars k from rfl, hic, List.cons_append,
            parseVal.eq_2, skipWs_not_ws hw]
          simp only []
          rw [if_neg h1, if_neg h2, if_neg h3, if_neg h4, if_neg h5, if_neg h6,
            ← List.cons_append, ← hic, parseNumber_intChars k tail hok]
        | jstr s =>
          rw [show dumpVal (Json.jstr s) lvl ++ tail = '"' :: (escStr s ++ '"' :: tail) from by
            simp [dumpVal, dumpStr, List.append_assoc]]
          rw [parseVal.eq_2, skipWs_not_ws (by decide)]
          simp only []
          rw [if_pos trivial, escStr_parse]
          rfl
        | jarr xs =>
          cases xs with
          | nil =>
            rw [show dumpVal (Json.jarr []) lvl ++ tail = '[' :: ']' :: tail from rfl]
            rw [parseVal.eq_2, skipWs_not_ws (by decide)]
            simp only []
            rw [if_neg (by decide), if_pos trivial]
            have hm : 1 ≤ m := by
              have h2 : jsize (Json.jarr []) = 2 := by simp [jsize]
              omega
            obtain ⟨m2, rfl⟩ : ∃ m2, m = m2 + 1 := ⟨m - 1, by omega⟩
            rw [parseArrRest.eq_2, skipWs_not_ws (by decide)]
            simp only []
            rw [if_pos trivial]
          | cons x xs2 =>
            have hsz2 : 2 + jsize x + itemsNeed xs2 ≤ m + 1 := by
              have he : jsize (Json.jarr (x :: xs2)) = 2 + jsize x + itemsNeed xs2 := by
                simp [jsize]
              omega
            have hwfx : jwf x = true := by
              have h := hwf
              simp [jwf, jwfItems, Bool.and_eq_true] at h
              exact h.1
            have hwfxs : jwfItems xs2 = true := by
              have h := hwf
              simp [jwf, jwfItems, Bool.and_eq_true] at h
              exact h.2
            rw [dump_arr_shape]
            rw [parseVal.eq_2, skipWs_not_ws (by decide)]
            simp only []
            rw [if_neg (by decide), if_pos trivial]
            obtain ⟨m2, rfl⟩ : ∃ m2, m = m2 + 1 := ⟨m - 1, by omega⟩
            obtain ⟨c, r, he, hw, hb⟩ := dumpVal_head x (lvl + 1)
            have hskip : skipWs ('\n' :: (jIndent (lvl + 1) ++ (dumpVal x (lvl + 1) ++
                (dumpItems xs2 (lvl + 1) ++ '\n' :: (jIndent lvl ++ (']' :: tail)))))) =
                c :: (r ++ (dumpItems xs2 (lvl + 1) ++
                  '\n' :: (jIndent lvl ++ (']' :: tail)))) := by
              rw [skipWs_cons_nl, skipWs_indent, he, List.cons_append, skipWs_not_ws hw]
            rw [parseArrRest.eq_2, hskip]
            simp only []
            rw [if_neg hb]
            have hcongr : parseVal m2 ('\n' :: (jIndent (lvl + 1) ++ (dumpVal x (lvl + 1) ++
                (dumpItems xs2 (lvl + 1) ++ '\n' :: (jIndent lvl ++ (']' :: tail)))))) =
                parseVal m2 (dumpVal x (lvl + 1) ++
                  (dumpItems xs2 (lvl + 1) ++ '\n' :: (jIndent lvl ++ (']' :: tail)))) := by
              apply parseVal_congr_ws
              rw [skipWs_cons_nl, skipWs_indent, skipWs_dump]
            rw [hcongr,
              (ih m2 (by omega)).1 x (lvl + 1) _ hwfx (by omega) (numOkB_items _ _ _),
              opt_bind_some]
            simp only []
            rw [(ih m2 (by omega)).2.1 xs2 lvl tail hwfxs (by omega)]
            rfl
        | jobj fs =>
          cases fs with
          | nil =>
            rw [show dumpVal (Json.jobj []) lvl ++ tail = chLB :: chRB :: tail from rfl]
            rw [parseVal.eq_2, skipWs_not_ws (by decide)]
            simp only []
            rw [if_neg (by decide), if_neg (by decide), if_pos trivial]
            have hm : 1 ≤ m := by
              have h2 : jsize (Json.jobj []) = 2 := by simp [jsize]
              omega
            obtain ⟨m2, rfl⟩ : ∃ m2, m = m2 + 1 := ⟨m - 1, by omega⟩
            rw [parseObjRest.eq_2, skipWs_not_ws (by decide)]
            simp only []
            rw [if_pos trivial]
            rfl
          | cons f fs2 =>
            obtain ⟨k, v0⟩ := f
            have hsz2 : 2 + jsize v0 + fieldsNeed fs2 ≤ m + 1 := by
              have he : jsize (Json.jobj ((k, v0) :: fs2)) =
                  2 + jsize v0 + fieldsNeed fs2 := by
                simp [jsize]
              omega
            have hdk : distinctKeys (((k, v0) :: fs2).map Prod.fst) = true := by
              have h := hwf
              simp [jwf, jwfFields, Bool.and_eq_true] at h
              simpa using h.1
            have hwfv : jwf v0 = true := by
              have h := hwf
              simp [jwf, jwfFields, Bool.and_eq_true] at h
              exact h.2.1
            have hwff2 : jwfFields fs2 = true := by
              have h := hwf
              simp [jwf, jwfFields, Bool.and_eq_true] at h
              exact h.2.2
            rw [dump_obj_shape]
            rw [parseVal.eq_2, skipWs_not_ws (by decide)]
            simp only []
            rw [if_neg (by decide), if_neg (by decide), if_pos trivial]
            obtain ⟨m2, rfl⟩ : ∃ m2, m = m2 + 1 := ⟨m - 1, by omega⟩
            have hskip : skipWs ('\n' :: (jIndent (lvl + 1) ++ (dumpField (k, v0) (lvl + 1) ++
                (dumpFields fs2 (lvl + 1) ++ '\n' :: (jIndent lvl ++ (chRB :: tail)))))) =
                '"' :: (escStr k ++ '"' :: ':' :: ' ' :: (dumpVal v0 (lvl + 1) ++
                  (dumpFields fs2 (lvl + 1) ++ '\n' :: (jIndent lvl ++ (chRB :: tail))))) := by
              rw [skipWs_cons_nl, skipWs_indent, dump_field_shape, skipWs_not_ws (by decide)]
            rw [parseObjRest.eq_2, hskip]
            simp only []
            rw [if_neg (by decide), if_pos trivial, escStr_parse, opt_bind_some]
            simp only []
            rw [skipWs_not_ws (by decide)]
            simp only []
            have hcongr : parseVal m2 (' ' :: (dumpVal v0 (lvl + 1) ++
                (dumpFields fs2 (lvl + 1) ++ '\n' :: (jIndent lvl ++ (chRB :: tail))))) =
                parseVal m2 (dumpVal v0 (lvl + 1) ++
                  (dumpFields fs2 (lvl + 1) ++ '\n' :: (jIndent lvl ++ (chRB :: tail)))) := by
              apply parseVal_congr_ws
              rw [skipWs_cons_space, skipWs_dump]
            rw [hcongr,
              (ih m2 (by omega)).1 v0 (lvl + 1) _ hwfv (by omega) (numOkB_fields _ _ _),
              opt_bind_some]
            simp only []
            rw [(ih m2 (by omega)).2.2 fs2 lvl tail hwff2 (by omega)]
            simp [dedupKeys_id _ hdk]
    · intro xs lvl tail hwf hsz
      cases n with
      | zero =>
        exfalso
        cases xs <;> simp [itemsNeed] at hsz <;> omega
      | succ m =>
        cases xs with
        | nil =>
          rw [show dumpItems [] (lvl + 1) ++ '\n' :: (jIndent lvl ++ (']' :: tail)) =
            '\n' :: (jIndent lvl ++ (']' :: tail)) from rfl]
          rw [parseArrItems.eq_2, skipWs_cons_nl, skipWs_indent, skipWs_not_ws (by decide)]
          simp only []
          rw [if_neg (by decide), if_pos trivial]
        | cons x xs2 =>
          have hsz2 : 1 + jsize x + itemsNeed xs2 ≤ m + 1 := by
            have he : itemsNeed (x :: xs2) = 1 + jsize x + itemsNeed xs2 := by
              simp [itemsNeed]
            omega
          have hwfx : jwf x = true := by
            have h := hwf
            simp [jwfItems, Bool.and_eq_true] at h
            exact h.1
          have hwfxs : jwfItems xs2 = true := by
            have h := hwf
            simp [jwfItems, Bool.and_eq_true] at h
            exact h.2
          rw [dump_items_shape]
          rw [parseArrItems.eq_2, skipWs_not_ws (by decide)]
          simp only []
          rw [if_pos trivial]
          have hcongr : parseVal m ('\n' :: (jIndent (lvl + 1) ++ (dumpVal x (lvl + 1) ++
              (dumpItems xs2 (lvl + 1) ++ '\n' :: (jIndent lvl ++ (']' :: tail)))))) =
              parseVal m (dumpVal x (lvl + 1) ++
                (dumpItems xs2 (lvl + 1) ++ '\n' :: (jIndent lvl ++ (']' :: tail)))) := by
            apply parseVal_congr_ws
            rw [skipWs_cons_nl, skipWs_indent, skipWs_dump]
          rw [hcongr,
            (ih m (by omega)).1 x (lvl + 1) _ hwfx (by omega) (numOkB_items _ _ _),
            opt_bind_some]
          simp only []
          rw [(ih m (by omega)).2.1 xs2 lvl tail hwfxs (by omega)]
          rfl
    · intro fs lvl tail hwf hsz
      cases n with
      | zero =>
        exfalso
        cases fs <;> simp [fieldsNeed] at hsz <;> omega
      | succ m =>
        cases fs with
        | nil =>
          rw [show dumpFields [] (lvl + 1) ++ '\n' :: (jIndent lvl ++ (chRB :: tail)) =
            '\n' :: (jIndent lvl ++ (chRB :: tail)) from rfl]
          rw [parseObjItems.eq_2, skipWs_cons_nl, skipWs_indent, skipWs_not_ws (by decide)]
          simp only []
          rw [if_neg (by decide), if_pos trivial]
        | cons f fs2 =>
          obtain ⟨k, v0⟩ := f
          have hsz2 : 1 + jsize v0 + fieldsNeed fs2 ≤ m + 1 := by
            have he : fieldsNeed ((k, v0) :: fs2) = 1 + jsize v0 + fieldsNeed fs2 := by
              simp [fieldsNeed]
            omega
          have hwfv : jwf v0 = true := by
            have h := hwf
            simp [jwfFields, Bool.and_eq_true] at h
            exact h.1
          have hwff2 : jwfFields fs2 = true := by
            have h := hwf
            simp [jwfFields, Bool.and_eq_true] at h
            exact h.2
          rw [dump_fields_shape]
          rw [parseObjItems.eq_2, skipWs_not_ws (by decide)]
          simp only []
          rw [if_pos trivial]
          have hskip : skipWs ('\n' :: (jIndent (lvl + 1) ++ (dumpField (k, v0) (lvl + 1) ++
              (dumpFields fs2 (lvl + 1) ++ '\n' :: (jIndent lvl ++ (chRB :: tail)))))) =
              '"' :: (escStr k ++ '"' :: ':' :: ' ' :: (dumpVal v0 (lvl + 1) ++
                (dumpFields fs2 (lvl + 1) ++ '\n' :: (jIndent lvl ++ (chRB :: tail))))) := by
            rw [skipWs_cons_nl, skipWs_indent, dump_field_shape, skipWs_not_ws (by decide)]
          rw [hskip]
          simp only []
          rw [if_pos trivial, escStr_parse, opt_bind_some]
          simp only []
          rw [skipWs_not_ws (by decide)]
          simp only []
          have hcongr : parseVal m (' ' :: (dumpVal v0 (lvl + 1) ++
              (dumpFields fs2 (lvl + 1) ++ '\n' :: (jIndent lvl ++ (chRB :: tail))))) =
              parseVal m (dumpVal v0 (lvl + 1) ++
                (dumpFields fs2 (lvl + 1) ++ '\n' :: (jIndent lvl ++ (chRB :: tail)))) := by
            apply parseVal_congr_ws
            rw [skipWs_cons_space, skipWs_dump]
          rw [hcongr,
            (ih m (by omega)).1 v0 (lvl + 1) _ hwfv (by omega) (numOkB_fields _ _ _),
            opt_bind_some]
          simp only []
          rw [(ih m (by omega)).2.2 fs2 lvl tail hwff2 (by omega)]
          rfl

/-- The fuel a value needs is bounded by the length of its serialized
form. -/
theorem dump_len : ∀ n : Nat,
    (∀ v lvl, jsize v ≤ n → jsize v ≤ (dumpVal v lvl).length) ∧
    (∀ xs lvl, itemsNeed xs ≤ n → itemsNeed xs ≤ (dumpItems xs lvl).length + 1) ∧
    (∀ fs lvl, fieldsNeed fs ≤ n → fieldsNeed fs ≤ (dumpFields fs lvl).length + 1) := by
  intro n
  induction n using Nat.strong_induction_on with
  | _ n ih =>
    refine ⟨?_, ?_, ?_⟩
    · intro v lvl hsz
      cases v with
      | jnull => simp [jsize, dumpVal]
      | jbool b => cases b <;> simp [jsize, dumpVal]
      | jint k =>
        have hlen : 0 < (intChars k).length := List.length_pos.2 (intChars_ne_nil k)
        have hj : jsize (Json.jint k) = 1 := by simp [jsize]
        rw [hj, show dumpVal (Json.jint k) lvl = intChars k from rfl]
        omega
      | jstr s =>
        have hj : jsize (Json.jstr s) = 1 := by simp [jsize]
        rw [hj, show dumpVal (Json.jstr s) lvl = dumpStr s from rfl]
        simp [dumpStr]
      | jarr xs =>
        cases xs with
        | nil => simp [jsize, dumpVal]
        | cons x xs2 =>
          have hj : jsize (Json.jarr (x :: xs2)) = 2 + jsize x + itemsNeed xs2 := by
            simp [jsize]
          rw [hj] at hsz ⊢
          have h1 := (ih (jsize x) (by omega)).1 x (lvl + 1) le_rfl
          have h2 := (ih (itemsNeed xs2) (by omega)).2.1 xs2 (lvl + 1) le_rfl
          rw [show dumpVal (Json.jarr (x :: xs2)) lvl =
            '[' :: '\n' :: (jIndent (lvl + 1) ++ dumpVal x (lvl + 1) ++
              dumpItems xs2 (lvl + 1) ++ '\n' :: (jIndent lvl ++ [']'])) from rfl]
          simp [List.length_append, jIndent]
          omega
      | jobj fs =>
        cases fs with
        | nil => simp [jsize, dumpVal]
        | cons f fs2 =>
          obtain ⟨k, v0⟩ := f
          have hj : jsize (Json.jobj ((k, v0) :: fs2)) = 2 + jsize v0 + fieldsNeed fs2 := by
            simp [jsize]
          rw [hj] at hsz ⊢
          have h1 := (ih (jsize v0) (by omega)).1 v0 (lvl + 1) le_rfl
          have h2 := (ih (fieldsNeed fs2) (by omega)).2.2 fs2 (lvl + 1) le_rfl
          rw [show dumpVal (Json.jobj ((k, v0) :: fs2)) lvl =
            chLB :: '\n' :: (jIndent (lvl + 1) ++
              (dumpStr k ++ ':' :: ' ' :: dumpVal v0 (lvl + 1)) ++
              dumpFields fs2 (lvl + 1) ++ '\n' :: (jIndent lvl ++ [chRB])) from rfl]
          simp [List.length_append, jIndent, dumpStr]
          omega
    · intro xs lvl hsz
      cases xs with
      | nil => simp [itemsNeed, dumpItems]
      | cons x xs2 =>
        have hj : itemsNeed (x :: xs2) = 1 + jsize x + itemsNeed xs2 := by
          simp [itemsNeed]
        rw [hj] at hsz ⊢
        have h1 := (ih (jsize x) (by omega)).1 x lvl le_rfl
        have h2 := (ih (itemsNeed xs2) (by omega)).2.1 xs2 lvl le_rfl
        rw [show dumpItems (x :: xs2) lvl =
          ',' :: '\n' :: (jIndent lvl ++ dumpVal x lvl ++ dumpItems xs2 lvl) from rfl]
        simp [List.length_append, jIndent]
        omega
    · intro fs lvl hsz
      cases fs with
      | nil => simp [fieldsNeed, dumpFields]
      | cons f fs2 =>
        obtain ⟨k, v0⟩ := f
        have hj : fieldsNeed ((k, v0) :: fs2) = 1 + jsize v0 + fieldsNeed fs2 := by
          simp [fieldsNeed]
        rw [hj] at hsz ⊢
        have h1 := (ih (jsize v0) (by omega)).1 v0 lvl le_rfl
        have h2 := (ih (fieldsNeed fs2) (by omega)).2.2 fs2 lvl le_rfl
        rw [show dumpFields ((k, v0) :: fs2) lvl =
          ',' :: '\n' :: (jIndent lvl ++ (dumpStr k ++ ':' :: ' ' :: dumpVal v0 lvl) ++
            dumpFields fs2 lvl) from rfl]
        simp [List.length_append, jIndent, dumpStr]
        omega

/-- Loading undoes writing, for every well-formed value. -/
theorem jsonLoad_writeContent (v : Json) (hwf : jwf v = true) :
    jsonLoad (writeContent v) = some v := by
  unfold jsonLoad writeContent
  have hfuel : jsize v ≤ 2 * (dumpVal v 0 ++ ['\n']).length + 2 := by
    have h := (dump_len (jsize v)).1 v 0 le_rfl
    simp [List.length_append]
    omega
  rw [(parse_dump _).1 v 0 ['\n'] hwf hfuel (by decide)]
  simp [show skipWs ['\n'] = [] from rfl]

/-- Field lists whose values are all strings are well formed. -/
theorem jwfFields_of_all_str : ∀ fs : List (List Char × Json),
    fs.all (fun f => match f.2 with | .jstr _ => true | _ => false) = true →
    jwfFields fs = true := by
  intro fs
  induction fs with
  | nil => intro h2; simp [jwfFields]
  | cons f t ihf =>
    intro h
    rw [List.all_cons, Bool.and_eq_true] at h
    have h1 := h.1
    have hjf : jwf f.2 = true := by
      cases hf : f.2 with
      | jstr s => simp [jwf]
      | jnull => rw [hf] at h1; simp at h1
      | jbool b => rw [hf] at h1; simp at h1
      | jint n => rw [hf] at h1; simp at h1
      | jarr xs => rw [hf] at h1; simp at h1
      | jobj fs0 => rw [hf] at h1; simp at h1
    have hrec := ihf h.2
    simp [jwfFields, Bool.and_eq_true]
    exact ⟨hjf, hrec⟩

/-- An alias store is a well-formed value. -/
theorem aliasStore_jwf (v : Json) (h : isAliasStore v = true) : jwf v = true := by
  cases v with
  | jobj fs =>
    simp only [isAliasStore] at h
    rw [Bool.and_eq_true] at h
    simp only [jwf]
    rw [Bool.and_eq_true]
    exact ⟨h.1, jwfFields_of_all_str fs h.2⟩
  | jnull => simp [isAliasStore] at h
  | jbool b => simp [isAliasStore] at h
  | jint n => simp [isAliasStore] at h
  | jstr s => simp [isAliasStore] at h
  | jarr xs => simp [isAliasStore] at h

/-- Field lists whose values are all alias stores are well formed. -/
theorem jwfFields_of_all_alias : ∀ fs : List (List Char × Json),
    fs.all (fun f => isAliasStore f.2) = true → jwfFields fs = true := by
  intro fs
  induction fs with
  | nil => intro h2; simp [jwfFields]
  | cons f t ihf =>
    intro h
    rw [List.all_cons, Bool.and_eq_true] at h
    simp [jwfFields, Bool.and_eq_true]
    exact ⟨aliasStore_jwf f.2 h.1, ihf h.2⟩

/-- A profile store is a well-formed value. -/
theorem profileStore_jwf (v : Json) (h : isProfileStore v = true) : jwf v = true := by
  cases v with
  | jobj fs =>
    simp only [isProfileStore] at h
    rw [Bool.and_eq_true] at h
    simp only [jwf]
    rw [Bool.and_eq_true]
    exact ⟨h.1, jwfFields_of_all_alias fs h.2⟩
  | jnull => simp [isProfileStore] at h
  | jbool b => simp [isProfileStore] at h
  | jint n => simp [isProfileStore] at h
  | jstr s => simp [isProfileStore] at h
  | jarr xs => simp [isProfileStore] at h

/-- Element lists of string-keyed dicts are well formed. -/
theorem jwfItems_of_store : ∀ xs : List Json,
    xs.all (fun x => match x with
      | .jobj fs => distinctKeys (fs.map Prod.fst) && jwfFields fs
      | _ => false) = true → jwfItems xs = true := by
  intro xs
  induction xs with
  | nil => intro h2; simp [jwfItems]
  | cons x t ihx =>
    intro h
    rw [List.all_cons, Bool.and_eq_true] at h
    have h1 := h.1
    have hjx : jwf x = true := by
      cases hx : x with
      | jobj fs0 =>
        rw [hx] at h1
        simp only [] at h1
        simp only [jwf]
        exact h1
      | jnull => rw [hx] at h1; simp at h1
      | jbool b => rw [hx] at h1; simp at h1
      | jint n => rw [hx] at h1; simp at h1
      | jstr s => rw [hx] at h1; simp at h1
      | jarr xs0 => rw [hx] at h1; simp at h1
    simp [jwfItems, Bool.and_eq_true]
    exact ⟨hjx, ihx h.2⟩

/-- A workflow store is a well-formed value. -/
theorem workflowStore_jwf (v : Json) (h : isWorkflowStore v = true) : jwf v = true := by
  cases v with
  | jarr xs =>
    simp only [isWorkflowStore] at h
    simp only [jwf]
    exact jwfItems_of_store xs h
  | jnull => simp [isWorkflowStore] at h
  | jbool b => simp [isWorkflowStore] at h
  | jint n => simp [isWorkflowStore] at h
  | jstr s => simp [isWorkflowStore] at h
  | jobj fs => simp [isWorkflowStore] at h

/-- Every store value of the three shapes is well formed. -/
theorem store_jwf (v : Json)
    (hv : isWorkflowStore v = true ∨ isProfileStore v = true ∨ isAliasStore v = true) :
    jwf v = true := by
  rcases hv with h | h | h
  · exact workflowStore_jwf v h
  · exact profileStore_jwf v h
  · exact aliasStore_jwf v h

/-- C3: writing any store value (a list of string-keyed dicts for workflows,
a dict of dicts of strings for profiles, a dict of strings for aliases) with
`_write_json` and reading the resulting file back with `_read_json` returns
the same value, whatever the default: the JSON file write/read is a round
trip. -/
theorem C3_store_round_trip (v : Json) (dflt : Json)
    (hv : isWorkflowStore v = true ∨ isProfileStore v = true ∨ isAliasStore v = true) :
    read_json (FileState.content (writeContent v)) dflt = v := by
  simp only [read_json]
  rw [jsonLoad_writeContent v (store_jwf v hv)]

/-- Witness for C3: a concrete one-workflow store round-trips through the
serialized file content. -/
theorem C3_store_round_trip_witness :
    isWorkflowStore c3val = true ∧
    read_json (FileState.content (writeContent c3val)) (Json.jarr []) = c3val :=
  ⟨by decide, C3_store_round_trip c3val (Json.jarr []) (Or.inl (by decide))⟩

/-- C7: `_read_json` returns the default, raising nothing, when the file is
missing, unreadable, or holds invalid JSON; hence the three loaders return
the empty list or empty dict defaults in every such error case. -/
theorem C7_read_json_defaults (dflt : Json) (s : List Char) (hbad : jsonLoad s = none) :
    read_json FileState.absent dflt = dflt ∧
    read_json FileState.unreadable dflt = dflt ∧
    read_json (FileState.content s) dflt = dflt ∧
    (∀ fs : FileState, (fs = FileState.absent ∨ fs = FileState.unreadable ∨
        fs = FileState.content s) →
      load_workflows_m fs = Json.jarr [] ∧ load_profiles_m fs = Json.jobj [] ∧
      load_aliases_m fs = Json.jobj []) := by
  refine ⟨rfl, rfl, ?_, ?_⟩
  · simp [read_json, hbad]
  · intro fs hfs
    rcases hfs with rfl | rfl | rfl <;>
      simp [load_workflows_m, load_profiles_m, load_aliases_m, read_json, hbad]

/-- Witness for C7: the content `x` is not valid JSON and the workflows
loader returns the empty list on it. -/
theorem C7_read_json_defaults_witness :
    jsonLoad "x".data = none ∧
    load_workflows_m (FileState.content "x".data) = Json.jarr [] :=
  ⟨rfl, ((C7_read_json_defaults (Json.jarr []) "x".data rfl).2.2.2
    (FileState.content "x".data) (Or.inr (Or.inr rfl))).1⟩
